import Mathlib

/-!
# Shallow embedding of the cache simulator

This file embeds the C++ cache simulator (`cache_simulator.h` plus its
implementation file) in Lean 4 and proves the specification claims about it.

Modelling conventions:
* C++ `int` values (addresses, tags, statistics) are modelled as `Int`.
  `address >> k` on a (possibly negative) `int` is an arithmetic shift, which
  is exactly `Int.shiftRight` (`>>>`); `x & mask` is `Int.land`.
  Signed-overflow-free arithmetic is assumed (signed overflow is undefined
  behaviour in C++), so statistics are unbounded `Int`s.
* The `uint32_t` timestamp fields (`load_ts`, `access_ts`) hold the value of
  the C++ `int` `totalCycles` converted to `uint32_t`; that conversion is
  reduction modulo 2^32 to the canonical nonnegative residue (`toU32`).
* `std::vector` is modelled as `List`; a C++ `Slot*` into a set is modelled
  as the way position (index) of the slot within its set, and pointer writes
  become functional updates (`List.set`).
* `log2` from `<cmath>` applied to a positive `int` is exact on powers of
  two; it is modelled by a fuel-based binary logarithm (`log2Fuel`), which
  agrees with `Nat.log2` and computes `k` on `2 ^ k`.
-/

namespace CacheSim

/-- Embedding of `struct Slot` from `cache_simulator.h`: tag, valid, dirty, the FIFO
timestamp `load_ts` and the LRU timestamp `access_ts`. -/
structure Slot where
  tag : Int
  valid : Bool
  dirty : Bool
  load_ts : Int
  access_ts : Int
deriving DecidableEq

/-- The slot value produced by `cacheSetUp`: everything zero / false. -/
def initSlot : Slot :=
  { tag := 0, valid := false, dirty := false, load_ts := 0, access_ts := 0 }

instance : Inhabited Slot := ⟨initSlot⟩

/-- Embedding of `struct Cache`: geometry, the three policy strings, the sets (each a list
of slots) and the seven statistics counters. -/
structure Cache where
  numSets : Nat
  numBlocks : Nat
  numBytes : Nat
  handleMiss : String
  handleWrite : String
  handleEviction : String
  sets : List (List Slot)
  loadCount : Int
  storeCount : Int
  loadHits : Int
  loadMisses : Int
  storeHits : Int
  storeMisses : Int
  totalCycles : Int
deriving DecidableEq

/-- Conversion of a C++ `int` value to `uint32_t` (used when `totalCycles`
is stored into the `uint32_t` timestamp fields): reduction modulo 2^32. -/
def toU32 (c : Int) : Int := c % 4294967296

/-- Fuel-based binary logarithm: `log2Fuel fuel n` counts how many times `n`
can be halved before reaching `1` (at most `fuel` times). -/
def log2Fuel : Nat → Nat → Nat
  | 0, _ => 0
  | fuel + 1, n => if n ≤ 1 then 0 else log2Fuel fuel (n / 2) + 1

/-- Model of `log2` from `<cmath>` as used by `calculateIndex` / `calculateTag` on the
validated geometry values (positive powers of two, where the floating-point
log is exact). -/
def log2 (n : Nat) : Nat := log2Fuel n n

/-- Embedding of `calculateIndex` (part_000, lines 92-100): arithmetic right shift by the
offset bits, then mask with `(1 << indexBits) - 1`. -/
def calculateIndex (address : Int) (cache : Cache) : Int :=
  let offset := log2 cache.numBytes
  let index := log2 cache.numSets
  let shifted := address >>> offset
  -- C++ `(1 << index) - 1`; since `1 << index ≥ 1` the subtraction is
  -- computed on `Nat` before the cast to `Int`.
  let mask : Int := (((1 <<< index) - 1 : Nat) : Int)
  Int.land shifted mask

/-- Embedding of `calculateTag` (part_000, lines 102-107): arithmetic right shift by
offset bits plus index bits. -/
def calculateTag (address : Int) (cache : Cache) : Int :=
  let offset := log2 cache.numBytes
  let index := log2 cache.numSets
  address >>> (offset + index)

/-- Reading `cache.sets[index]`. Out-of-range reads yield `[]`; the
simulator only ever uses indices produced by `calculateIndex`. -/
def getSet (cache : Cache) (index : Nat) : List Slot := cache.sets.getD index []

/-- The slot at way `w` of set `index` (dereferencing a `Slot*`). -/
def getSlot (cache : Cache) (index w : Nat) : Slot :=
  (getSet cache index).getD w initSlot

/-- Writing through a `Slot*` that points at way `w` of set `index`. -/
def modifySlot (cache : Cache) (index w : Nat) (f : Slot → Slot) : Cache :=
  { cache with
    sets := cache.sets.set index ((getSet cache index).set w (f (getSlot cache index w))) }

/-- Embedding of `cacheSetUp` (part_000, lines 109-137): all slots invalid, clean, with
zero tag and timestamps; all statistics start at 0. -/
def cacheSetUp (numSets numBlocks numBytes : Nat)
    (handleMiss handleWrite handleEviction : String) : Cache :=
  { numSets := numSets, numBlocks := numBlocks, numBytes := numBytes,
    handleMiss := handleMiss, handleWrite := handleWrite,
    handleEviction := handleEviction,
    sets := List.replicate numSets (List.replicate numBlocks initSlot),
    loadCount := 0, storeCount := 0, loadHits := 0, loadMisses := 0,
    storeHits := 0, storeMisses := 0, totalCycles := 0 }

/-- Embedding of `findBlock` (part_000, lines 243-257): first slot of the set that is
valid and carries the queried tag; the returned `Slot*` is modelled as the
way position. -/
def findBlock (tag : Int) (index : Nat) (cache : Cache) : Option Nat :=
  (getSet cache index).findIdx? (fun slot => slot.valid && (slot.tag == tag))

/-- The scan loop shared by `findLRUBlock` and `findFIFOBlock`:
`temp = &slots[0]; for slot in slots: if key(slot) < key(*temp): temp = &slot`.
`pos` is the way position of the next slot; `best` is the current
`(position of temp, *temp)`. Strict `<` keeps the first minimum. -/
def minScan (key : Slot → Int) : List Slot → Nat → Nat × Slot → Nat × Slot
  | [], _, best => best
  | slot :: rest, pos, best =>
      minScan key rest (pos + 1) (if key slot < key best.2 then (pos, slot) else best)

/-- Way position selected by the `findLRUBlock` scan (minimum `access_ts`,
first one on ties). -/
def lruVictim (set : List Slot) : Nat :=
  (minScan (fun slot => slot.access_ts) set 0 (0, set.headD initSlot)).1

/-- Way position selected by the `findFIFOBlock` scan (minimum `load_ts`,
first one on ties). -/
def fifoVictim (set : List Slot) : Nat :=
  (minScan (fun slot => slot.load_ts) set 0 (0, set.headD initSlot)).1

/-- Embedding of `findLRUBlock` (part_000, lines 288-308): select the slot with minimal
`access_ts`; if it is dirty under write-back, flush it (reset valid and
dirty, charge `100 * numBytes / 4` cycles). Returns the victim way, the
updated set and the updated `totalCycles`. -/
def findLRUBlock (set : List Slot) (cache : Cache) : Nat × List Slot × Int :=
  let w := lruVictim set
  let temp := set.getD w initSlot
  if temp.dirty ∧ cache.handleWrite = "write-back" then
    (w, set.set w { temp with valid := false, dirty := false },
      cache.totalCycles + ((100 * cache.numBytes / 4 : Nat) : Int))
  else
    (w, set, cache.totalCycles)

/-- Embedding of `findFIFOBlock` (part_000, lines 310-329): same as `findLRUBlock` with
`load_ts` as the key. -/
def findFIFOBlock (set : List Slot) (cache : Cache) : Nat × List Slot × Int :=
  let w := fifoVictim set
  let temp := set.getD w initSlot
  if temp.dirty ∧ cache.handleWrite = "write-back" then
    (w, set.set w { temp with valid := false, dirty := false },
      cache.totalCycles + ((100 * cache.numBytes / 4 : Nat) : Int))
  else
    (w, set, cache.totalCycles)

/-- Embedding of `findReplacementBlock` (part_000, lines 259-286): first invalid slot if
any, otherwise the LRU/FIFO victim (with a possible dirty flush applied to
the cache). Returns the updated cache and the chosen way. -/
def findReplacementBlock (index : Nat) (cache : Cache) : Cache × Nat :=
  let set := getSet cache index
  match set.findIdx? (fun slot => !slot.valid) with
  | some i => (cache, i)
  | none =>
      let r := if cache.handleEviction = "lru"
               then findLRUBlock set cache
               else findFIFOBlock set cache
      ({ cache with sets := cache.sets.set index r.2.1, totalCycles := r.2.2 }, r.1)

/-- Embedding of `handleLoad` (part_000, lines 139-171). The C++ sets `valid`/`tag` and
then one timestamp on the replacement slot; here the two policy branches
each perform the combined record update. -/
def handleLoad (cache : Cache) (index : Nat) (tag : Int) (hit : Option Nat) : Cache :=
  let c1 := { cache with loadCount := cache.loadCount + 1 }
  match hit with
  | some w =>
      let c2 := { c1 with loadHits := c1.loadHits + 1, totalCycles := c1.totalCycles + 1 }
      if cache.handleEviction = "lru" then
        modifySlot c2 index w (fun s => { s with access_ts := toU32 c2.totalCycles })
      else
        c2
  | none =>
      let c2 := { c1 with loadMisses := c1.loadMisses + 1, totalCycles :=
                    c1.totalCycles + ((100 * cache.numBytes / 4 : Nat) : Int) }
      let r := findReplacementBlock index c2
      let c3 := { r.1 with totalCycles := r.1.totalCycles + 1 }
      if cache.handleEviction = "lru" then
        modifySlot c3 index r.2
          (fun s => { s with valid := true, tag := tag, access_ts := toU32 c3.totalCycles })
      else
        modifySlot c3 index r.2
          (fun s => { s with valid := true, tag := tag, load_ts := toU32 c3.totalCycles })

/-- Embedding of `handleStore` (part_000, lines 173-222). -/
def handleStore (cache : Cache) (index : Nat) (tag : Int) (hit : Option Nat) : Cache :=
  let c1 := { cache with storeCount := cache.storeCount + 1 }
  match hit with
  | some w =>
      let c2 := { c1 with storeHits := c1.storeHits + 1 }
      let c3 := modifySlot c2 index w (fun s => { s with access_ts := toU32 c2.totalCycles })
      if cache.handleWrite = "write-back" then
        let c4 := modifySlot c3 index w (fun s => { s with dirty := true })
        { c4 with totalCycles := c4.totalCycles + 1 }
      else
        { c3 with totalCycles := c3.totalCycles + 100 }
  | none =>
      let c2 := { c1 with storeMisses := c1.storeMisses + 1 }
      if cache.handleMiss = "no-write-allocate" then
        { c2 with totalCycles := c2.totalCycles + 100 }
      else
        let c3 := { c2 with totalCycles :=
                      c2.totalCycles + ((100 * (cache.numBytes / 4) : Nat) : Int) }
        let r := findReplacementBlock index c3
        let c4 := { r.1 with totalCycles := r.1.totalCycles + 1 }
        let c5 :=
          if cache.handleEviction = "lru" then
            modifySlot c4 index r.2
              (fun s => { s with valid := true, tag := tag, access_ts := toU32 c4.totalCycles })
          else
            modifySlot c4 index r.2
              (fun s => { s with valid := true, tag := tag, load_ts := toU32 c4.totalCycles })
        if cache.handleWrite = "write-back" then
          modifySlot c5 index r.2 (fun s => { s with dirty := true })
        else
          c5

/-- Embedding of `cacheSimulator` (part_000, lines 224-241): decode the address, look the
block up, then dispatch to the load handler on `'l'` and to the store
handler on every other operation character. -/
def cacheSimulator (cache : Cache) (loadStore : Char) (address : Int) : Cache :=
  let index := (calculateIndex address cache).toNat
  let tag := calculateTag address cache
  let hit := findBlock tag index cache
  if loadStore = 'l' then
    handleLoad cache index tag hit
  else
    handleStore cache index tag hit

/-- Conversion done by the read loop of the main function: the parsed
`uint32_t` address is passed to the `int` parameter of `cacheSimulator`,
wrapping modulo 2^32 into `[-2^31, 2^31)`. -/
def int32OfUInt32 (a : Nat) : Int :=
  if a < 2147483648 then (a : Int) else (a : Int) - 4294967296

/-- Trace loop of the main function: one `cacheSimulator` call per
(operation character, 32-bit address) trace record, in order. -/
def runTrace (cache : Cache) : List (Char × Nat) → Cache
  | [] => cache
  | (op, addr) :: rest => runTrace (cacheSimulator cache op (int32OfUInt32 addr)) rest

/-! ## Supporting lemmas -/

theorem log2Fuel_two_pow (fuel k : Nat) (h : k ≤ fuel) : log2Fuel fuel (2 ^ k) = k := by
  induction fuel generalizing k with
  | zero =>
      have : k = 0 := Nat.le_zero.mp h
      subst this
      rfl
  | succ fuel ih =>
      cases k with
      | zero => rfl
      | succ k =>
          have h2 : ¬ (2 ^ (k + 1) ≤ 1) := by
            have : 2 ≤ 2 ^ (k + 1) := by
              calc 2 = 2 ^ 1 := rfl
                _ ≤ 2 ^ (k + 1) := Nat.pow_le_pow_right (by omega) (by omega)
            omega
          have hdiv : 2 ^ (k + 1) / 2 = 2 ^ k := by
            rw [Nat.pow_succ]
            exact Nat.mul_div_cancel _ (by omega)
          simp only [log2Fuel, if_neg h2, hdiv]
          rw [ih k (Nat.succ_le_succ_iff.mp h)]

theorem log2_two_pow (k : Nat) : log2 (2 ^ k) = k :=
  log2Fuel_two_pow (2 ^ k) k (Nat.le_of_lt (Nat.lt_two_pow k))

/-- Predicate stating that `w` is the position of the first minimum of `key` over `slots`:
in range, minimal, and strictly below every earlier slot key. -/
def isFirstMinBy (key : Slot → Int) (slots : List Slot) (w : Nat) : Prop :=
  w < slots.length ∧
  (∀ i, i < slots.length → key (slots.getD w initSlot) ≤ key (slots.getD i initSlot)) ∧
  (∀ i, i < w → key (slots.getD w initSlot) < key (slots.getD i initSlot))

/-- Predicate stating that `w` is the position of the first invalid slot of `slots`. -/
def isFirstInvalid (slots : List Slot) (w : Nat) : Prop :=
  w < slots.length ∧ (slots.getD w initSlot).valid = false ∧
  ∀ i, i < w → (slots.getD i initSlot).valid = true

theorem minScan_spec (key : Slot → Int) (slots : List Slot) (pos : Nat) (b : Nat × Slot) :
    (minScan key slots pos b = b ∧ ∀ s ∈ slots, key b.2 ≤ key s) ∨
    (∃ j, j < slots.length ∧
      minScan key slots pos b = (pos + j, slots.getD j initSlot) ∧
      key (slots.getD j initSlot) < key b.2 ∧
      (∀ i, i < slots.length → key (slots.getD j initSlot) ≤ key (slots.getD i initSlot)) ∧
      (∀ i, i < j → key (slots.getD j initSlot) < key (slots.getD i initSlot))) := by
  induction slots generalizing pos b with
  | nil =>
      left
      exact ⟨rfl, by intro s hs; cases hs⟩
  | cons s rest ih =>
      by_cases hlt : key s < key b.2
      · have hstep : minScan key (s :: rest) pos b = minScan key rest (pos + 1) (pos, s) := by
          simp [minScan, hlt]
        rcases ih (pos + 1) (pos, s) with ⟨heq, hmin⟩ | ⟨j, hj, heq, hlt2, hmin, hfirst⟩
        · right
          refine ⟨0, by simp, ?_, by simpa using hlt, ?_, ?_⟩
          · rw [hstep, heq]
            simp
          · intro i hi
            cases i with
            | zero => simp
            | succ i =>
                simp only [List.getD_cons_zero, List.getD_cons_succ]
                have hi' : i < rest.length := by simpa using hi
                have hmem : rest.getD i initSlot ∈ rest := by
                  rw [List.getD_eq_getElem _ _ hi']
                  exact List.getElem_mem _
                exact hmin _ hmem
          · intro i hi
            omega
        · right
          refine ⟨j + 1, by simpa using hj, ?_, ?_, ?_, ?_⟩
          · rw [hstep, heq]
            simp only [List.getD_cons_succ]
            have harith : pos + 1 + j = pos + (j + 1) := by omega
            rw [harith]
          · simp only [List.getD_cons_succ]
            exact lt_trans hlt2 hlt
          · intro i hi
            cases i with
            | zero =>
                simp only [List.getD_cons_zero, List.getD_cons_succ]
                exact le_of_lt hlt2
            | succ i =>
                simp only [List.getD_cons_succ]
                exact hmin i (by simpa using hi)
          · intro i hi
            cases i with
            | zero =>
                simp only [List.getD_cons_zero, List.getD_cons_succ]
                exact hlt2
            | succ i =>
                simp only [List.getD_cons_succ]
                exact hfirst i (by omega)
      · have hstep : minScan key (s :: rest) pos b = minScan key rest (pos + 1) b := by
          simp [minScan, hlt]
        rcases ih (pos + 1) b with ⟨heq, hmin⟩ | ⟨j, hj, heq, hlt2, hmin, hfirst⟩
        · left
          refine ⟨by rw [hstep, heq], ?_⟩
          intro s' hs'
          rcases List.mem_cons.mp hs' with rfl | hmem
          · exact le_of_not_lt hlt
          · exact hmin _ hmem
        · right
          refine ⟨j + 1, by simpa using hj, ?_, ?_, ?_, ?_⟩
          · rw [hstep, heq]
            simp only [List.getD_cons_succ]
            have harith : pos + 1 + j = pos + (j + 1) := by omega
            rw [harith]
          · simp only [List.getD_cons_succ]
            exact hlt2
          · intro i hi
            cases i with
            | zero =>
                simp only [List.getD_cons_zero, List.getD_cons_succ]
                exact le_trans (le_of_lt hlt2) (le_of_not_lt hlt)
            | succ i =>
                simp only [List.getD_cons_succ]
                exact hmin i (by simpa using hi)
          · intro i hi
            cases i with
            | zero =>
                simp only [List.getD_cons_zero, List.getD_cons_succ]
                exact lt_of_lt_of_le hlt2 (le_of_not_lt hlt)
            | succ i =>
                simp only [List.getD_cons_succ]
                exact hfirst i (by omega)

theorem victim_first_min (key : Slot → Int) (slots : List Slot) (hne : slots ≠ []) :
    isFirstMinBy key slots (minScan key slots 0 (0, slots.headD initSlot)).1 := by
  rcases slots with _ | ⟨s0, rest⟩
  · cases hne rfl
  · simp only [isFirstMinBy, List.headD_cons]
    rcases minScan_spec key (s0 :: rest) 0 (0, s0) with ⟨heq, hmin⟩ |
      ⟨j, hj, heq, _hlt2, hmin, hfirst⟩
    · have hw : (minScan key (s0 :: rest) 0 (0, s0)).1 = 0 := by rw [heq]
      refine ⟨by rw [hw]; simp, ?_, ?_⟩
      · intro i hi
        rw [hw]
        have hmem : (s0 :: rest).getD i initSlot ∈ s0 :: rest := by
          rw [List.getD_eq_getElem _ _ hi]
          exact List.getElem_mem _
        simpa using hmin _ hmem
      · intro i hi
        rw [hw] at hi
        omega
    · have hw : (minScan key (s0 :: rest) 0 (0, s0)).1 = j := by rw [heq]; simp
      refine ⟨by rw [hw]; exact hj, ?_, ?_⟩
      · intro i hi
        rw [hw]
        exact hmin i hi
      · intro i hi
        rw [hw] at hi ⊢
        exact hfirst i hi

theorem lruVictim_first_min (slots : List Slot) (hne : slots ≠ []) :
    isFirstMinBy (fun s => s.access_ts) slots (lruVictim slots) :=
  victim_first_min _ slots hne

theorem fifoVictim_first_min (slots : List Slot) (hne : slots ≠ []) :
    isFirstMinBy (fun s => s.load_ts) slots (fifoVictim slots) :=
  victim_first_min _ slots hne

/-- The victim way chosen by the configured eviction policy (the dispatch in
`findReplacementBlock` between `findLRUBlock` and `findFIFOBlock`). -/
def policyVictim (cache : Cache) (slots : List Slot) : Nat :=
  if cache.handleEviction = "lru" then lruVictim slots else fifoVictim slots

theorem list_set_getD_self {α : Type} (l : List α) (i : Nat) (d : α) (h : i < l.length) :
    l.set i (l.getD i d) = l := by
  induction l generalizing i with
  | nil => simp at h
  | cons a t ih =>
      cases i with
      | zero => simp
      | succ i =>
          simp only [List.getD_cons_succ, List.set]
          rw [ih i (by simpa using h)]

theorem sets_set_self (cache : Cache) (index : Nat) :
    cache.sets.set index (getSet cache index) = cache.sets := by
  by_cases h : index < cache.sets.length
  · exact list_set_getD_self _ _ _ h
  · exact List.set_eq_of_length_le (Nat.le_of_not_lt h)

theorem getD_set_self {α : Type} (l : List α) (i : Nat) (x d : α) (h : i < l.length) :
    (l.set i x).getD i d = x := by
  rw [List.getD_eq_getElem _ _ (by simpa using h)]
  exact List.getElem_set_self _

theorem getD_set_ne {α : Type} (l : List α) (i j : Nat) (x d : α) (hne : i ≠ j) :
    (l.set i x).getD j d = l.getD j d := by
  by_cases h : j < l.length
  · rw [List.getD_eq_getElem _ _ (by simpa using h), List.getD_eq_getElem _ _ h]
    exact List.getElem_set_ne hne _
  · rw [List.getD_eq_getElem?_getD, List.getD_eq_getElem?_getD,
      List.getElem?_eq_none (by simpa using Nat.le_of_not_lt h),
      List.getElem?_eq_none (by simpa using Nat.le_of_not_lt h)]

theorem firstInvalid_of_findIdx?_some (slots : List Slot) (i : Nat)
    (h : slots.findIdx? (fun slot => !slot.valid) = some i) : isFirstInvalid slots i := by
  rw [List.findIdx?_eq_some_iff_getElem] at h
  obtain ⟨hi, hp, hall⟩ := h
  refine ⟨hi, ?_, ?_⟩
  · rw [List.getD_eq_getElem _ _ hi]
    simpa using hp
  · intro j hj
    have hj' := hall j hj
    rw [List.getD_eq_getElem _ _ (lt_trans hj hi)]
    simpa using hj'

theorem findIdx?_none_of_all_valid (slots : List Slot)
    (hall : ∀ i, i < slots.length → (slots.getD i initSlot).valid = true) :
    slots.findIdx? (fun slot => !slot.valid) = none := by
  rw [List.findIdx?_eq_none_iff]
  intro x hx
  obtain ⟨n, hn, rfl⟩ := List.mem_iff_getElem.mp hx
  have hv := hall n hn
  rw [List.getD_eq_getElem _ _ hn] at hv
  simp [hv]

theorem all_valid_of_findIdx?_none (slots : List Slot)
    (h : slots.findIdx? (fun slot => !slot.valid) = none) :
    ∀ i, i < slots.length → (slots.getD i initSlot).valid = true := by
  rw [List.findIdx?_eq_none_iff] at h
  intro i hi
  rw [List.getD_eq_getElem _ _ hi]
  have := h _ (List.getElem_mem hi)
  simpa using this

theorem findLRUBlock_eq_dirty (set : List Slot) (cache : Cache)
    (hd : (set.getD (lruVictim set) initSlot).dirty = true)
    (hwb : cache.handleWrite = "write-back") :
    findLRUBlock set cache =
      (lruVictim set,
       set.set (lruVictim set)
         { set.getD (lruVictim set) initSlot with valid := false, dirty := false },
       cache.totalCycles + ((100 * cache.numBytes / 4 : Nat) : Int)) := by
  simp only [findLRUBlock]
  rw [if_pos ⟨hd, hwb⟩]

theorem findLRUBlock_eq_clean (set : List Slot) (cache : Cache)
    (hcl : ¬((set.getD (lruVictim set) initSlot).dirty = true
      ∧ cache.handleWrite = "write-back")) :
    findLRUBlock set cache = (lruVictim set, set, cache.totalCycles) := by
  simp only [findLRUBlock]
  rw [if_neg hcl]

theorem findFIFOBlock_eq_dirty (set : List Slot) (cache : Cache)
    (hd : (set.getD (fifoVictim set) initSlot).dirty = true)
    (hwb : cache.handleWrite = "write-back") :
    findFIFOBlock set cache =
      (fifoVictim set,
       set.set (fifoVictim set)
         { set.getD (fifoVictim set) initSlot with valid := false, dirty := false },
       cache.totalCycles + ((100 * cache.numBytes / 4 : Nat) : Int)) := by
  simp only [findFIFOBlock]
  rw [if_pos ⟨hd, hwb⟩]

theorem findFIFOBlock_eq_clean (set : List Slot) (cache : Cache)
    (hcl : ¬((set.getD (fifoVictim set) initSlot).dirty = true
      ∧ cache.handleWrite = "write-back")) :
    findFIFOBlock set cache = (fifoVictim set, set, cache.totalCycles) := by
  simp only [findFIFOBlock]
  rw [if_neg hcl]

theorem frb_of_invalid (cache : Cache) (index i : Nat)
    (h : (getSet cache index).findIdx? (fun slot => !slot.valid) = some i) :
    findReplacementBlock index cache = (cache, i) := by
  simp only [findReplacementBlock, h]

theorem frb_evict_dirty (cache : Cache) (index : Nat)
    (hnone : (getSet cache index).findIdx? (fun slot => !slot.valid) = none)
    (hd : ((getSet cache index).getD (policyVictim cache (getSet cache index)) initSlot).dirty
      = true)
    (hwb : cache.handleWrite = "write-back") :
    findReplacementBlock index cache =
      ({ cache with
         sets := cache.sets.set index ((getSet cache index).set
           (policyVictim cache (getSet cache index))
           { (getSet cache index).getD (policyVictim cache (getSet cache index)) initSlot with
             valid := false, dirty := false }),
         totalCycles := cache.totalCycles + ((100 * cache.numBytes / 4 : Nat) : Int) },
       policyVictim cache (getSet cache index)) := by
  by_cases hpol : cache.handleEviction = "lru"
  · simp only [policyVictim, if_pos hpol] at hd ⊢
    simp only [findReplacementBlock, hnone, if_pos hpol,
      findLRUBlock_eq_dirty (getSet cache index) cache hd hwb]
  · simp only [policyVictim, if_neg hpol] at hd ⊢
    simp only [findReplacementBlock, hnone, if_neg hpol,
      findFIFOBlock_eq_dirty (getSet cache index) cache hd hwb]

theorem frb_evict_clean (cache : Cache) (index : Nat)
    (hnone : (getSet cache index).findIdx? (fun slot => !slot.valid) = none)
    (hcl : ¬(((getSet cache index).getD (policyVictim cache (getSet cache index)) initSlot).dirty
        = true ∧ cache.handleWrite = "write-back")) :
    findReplacementBlock index cache = (cache, policyVictim cache (getSet cache index)) := by
  by_cases hpol : cache.handleEviction = "lru"
  · simp only [policyVictim, if_pos hpol] at hcl ⊢
    simp only [findReplacementBlock, hnone, if_pos hpol,
      findLRUBlock_eq_clean (getSet cache index) cache hcl]
    rw [sets_set_self]
  · simp only [policyVictim, if_neg hpol] at hcl ⊢
    simp only [findReplacementBlock, hnone, if_neg hpol,
      findFIFOBlock_eq_clean (getSet cache index) cache hcl]
    rw [sets_set_self]

theorem getSlot_after_set (cache : Cache) (index v : Nat) (x : List Slot) (tc : Int)
    (hidx : index < cache.sets.length) :
    getSlot { cache with sets := cache.sets.set index x, totalCycles := tc } index v
      = x.getD v initSlot := by
  simp only [getSlot, getSet]
  rw [getD_set_self _ _ _ _ hidx]

theorem frb_snd_of_none (cache : Cache) (index : Nat)
    (hnone : (getSet cache index).findIdx? (fun slot => !slot.valid) = none) :
    (findReplacementBlock index cache).2 = policyVictim cache (getSet cache index) := by
  by_cases hc : ((getSet cache index).getD (policyVictim cache (getSet cache index))
      initSlot).dirty = true ∧ cache.handleWrite = "write-back"
  · rw [frb_evict_dirty cache index hnone hc.1 hc.2]
  · rw [frb_evict_clean cache index hnone hc]

theorem policyVictim_lt (cache : Cache) (slots : List Slot) (hne : slots ≠ []) :
    policyVictim cache slots < slots.length := by
  by_cases hpol : cache.handleEviction = "lru"
  · simpa [policyVictim, hpol] using (lruVictim_first_min _ hne).1
  · simpa [policyVictim, hpol] using (fifoVictim_first_min _ hne).1

/-! ## Claim theorems -/

/-- Configuration used by the C1 and C3 scenarios: a single direct-mapped
4-byte block, write-allocate + write-back + lru. -/
def c1Cache : Cache := cacheSetUp 1 1 4 "write-allocate" "write-back" "lru"

/-- Claim C1 (counterexample): the claim says `calculateTag` computes a 32-bit
*unsigned* shift and is always non-negative.  The code stores the address in
a C++ `int`, so for the 32-bit address `0x80000000` (with the valid geometry
numSets = 1, blockSizeBytes = 4) the arithmetic shift sign-extends and the
resulting tag is negative and differs from the unsigned shift
`0x80000000 >> 2 = 0x20000000`. -/
theorem claim_C1_counterexample :
    calculateTag (int32OfUInt32 2147483648) c1Cache < 0 ∧
    calculateTag (int32OfUInt32 2147483648) c1Cache ≠ ((2147483648 >>> 2 : Nat) : Int) := by
  constructor
  · decide
  · decide

/-- Claim C1 (amended): for every 32-bit address whose top bit is clear
(`address < 2^31`, so the `uint32_t` to `int` conversion is the identity)
and every valid geometry, `calculateIndex` equals
`(address >> log2 blockSize) & ((1 << log2 numSets) - 1)` computed on the
unsigned address and lies in `[0, numSets)`, and `calculateTag` equals the
unsigned shift `address >> (offsetBits + indexBits)` and is non-negative.
For addresses with the top bit set the shift sign-extends (see the
counterexample). -/
theorem claim_C1_amended (a si bo : Nat) (cache : Cache)
    (hset : cache.numSets = 2 ^ si) (hbytes : cache.numBytes = 2 ^ bo)
    (_hbo : 2 ≤ bo) (ha : a < 2 ^ 31) :
    calculateIndex (int32OfUInt32 a) cache = (((a >>> bo) &&& ((1 <<< si) - 1) : Nat) : Int) ∧
    0 ≤ calculateIndex (int32OfUInt32 a) cache ∧
    calculateIndex (int32OfUInt32 a) cache < (cache.numSets : Int) ∧
    calculateTag (int32OfUInt32 a) cache = ((a >>> (bo + si) : Nat) : Int) ∧
    0 ≤ calculateTag (int32OfUInt32 a) cache := by
  have hconv : int32OfUInt32 a = (a : Int) := by
    unfold int32OfUInt32
    rw [if_pos]
    exact lt_of_lt_of_le ha (by norm_num)
  have hidx : calculateIndex (int32OfUInt32 a) cache
      = (((a >>> bo) &&& ((1 <<< si) - 1) : Nat) : Int) := by
    simp only [calculateIndex, hconv, hbytes, hset, log2_two_pow]
    rfl
  have htag : calculateTag (int32OfUInt32 a) cache = ((a >>> (bo + si) : Nat) : Int) := by
    simp only [calculateTag, hconv, hbytes, hset, log2_two_pow]
    rfl
  refine ⟨hidx, ?_, ?_, htag, ?_⟩
  · rw [hidx]
    exact Int.natCast_nonneg _
  · rw [hidx, hset]
    have : ((a >>> bo) &&& ((1 <<< si) - 1) : Nat) < 2 ^ si := by
      rw [Nat.one_shiftLeft, Nat.and_pow_two_sub_one_eq_mod]
      exact Nat.mod_lt _ (Nat.pos_pow_of_pos si (by omega))
    exact_mod_cast this
  · rw [htag]
    exact Int.natCast_nonneg _

/-- Claim C1 (witness): the amended claim at address 4 with the
numSets = 1 = 2^0, blockSizeBytes = 4 = 2^2 geometry. -/
theorem claim_C1_witness :
    c1Cache.numSets = 2 ^ 0 ∧ c1Cache.numBytes = 2 ^ 2 ∧ (4 : Nat) < 2 ^ 31 ∧
    (calculateIndex (int32OfUInt32 4) c1Cache = (((4 >>> 2) &&& ((1 <<< 0) - 1) : Nat) : Int) ∧
     0 ≤ calculateIndex (int32OfUInt32 4) c1Cache ∧
     calculateIndex (int32OfUInt32 4) c1Cache < (c1Cache.numSets : Int) ∧
     calculateTag (int32OfUInt32 4) c1Cache = ((4 >>> (2 + 0) : Nat) : Int) ∧
     0 ≤ calculateTag (int32OfUInt32 4) c1Cache) :=
  ⟨rfl, rfl, by decide, claim_C1_amended 4 0 2 c1Cache rfl rfl (by decide) (by decide)⟩

/-- Claim C3: from the freshly initialized cache with numSets = 1,
numBlocksPerSet = 1, blockSizeBytes = 4, write-allocate, write-back, lru,
the trace `s 0x0` then `l 0x4` ends with totalCycles = 302,
storeMisses = 1 and loadMisses = 1. -/
theorem claim_C3_scenario :
    (runTrace c1Cache [('s', 0), ('l', 4)]).totalCycles = 302 ∧
    (runTrace c1Cache [('s', 0), ('l', 4)]).storeMisses = 1 ∧
    (runTrace c1Cache [('s', 0), ('l', 4)]).loadMisses = 1 := by
  refine ⟨?_, ?_, ?_⟩ <;> decide

/-- Claim C10: `cacheSimulator` performs the load handling exactly for the
operation character `'l'` and the store handling for every other character
(`'s'` or not). -/
theorem claim_C10_dispatch (cache : Cache) (c : Char) (address : Int) :
    cacheSimulator cache 'l' address =
      handleLoad cache (calculateIndex address cache).toNat (calculateTag address cache)
        (findBlock (calculateTag address cache) (calculateIndex address cache).toNat cache) ∧
    (c ≠ 'l' →
      cacheSimulator cache c address =
        handleStore cache (calculateIndex address cache).toNat (calculateTag address cache)
          (findBlock (calculateTag address cache) (calculateIndex address cache).toNat cache)) := by
  constructor
  · rfl
  · intro h
    simp only [cacheSimulator, if_neg h]

/-- Claim C10 (witness): the dispatch claim at the concrete character `'s'`. -/
theorem claim_C10_witness :
    cacheSimulator c1Cache 's' 0 =
      handleStore c1Cache (calculateIndex 0 c1Cache).toNat (calculateTag 0 c1Cache)
        (findBlock (calculateTag 0 c1Cache) (calculateIndex 0 c1Cache).toNat c1Cache) :=
  (claim_C10_dispatch c1Cache 's' 0).2 (by decide)

/-- Claim C4: a store access that misses under no-write-allocate increments
storeMisses and storeCount, adds exactly 100 cycles, and leaves everything
else — in particular every slot of every set — unchanged (the record update
fixes all remaining fields, including `sets`). -/
theorem claim_C4_no_write_allocate_store_miss (cache : Cache) (c : Char) (address : Int)
    (hc : c ≠ 'l') (hpol : cache.handleMiss = "no-write-allocate")
    (hmiss : findBlock (calculateTag address cache)
      (calculateIndex address cache).toNat cache = none) :
    cacheSimulator cache c address =
      { cache with storeCount := cache.storeCount + 1,
                   storeMisses := cache.storeMisses + 1,
                   totalCycles := cache.totalCycles + 100 } := by
  simp only [cacheSimulator, if_neg hc, hmiss, handleStore, hpol, if_pos]

/-- Claim C4 (witness): a no-write-allocate store miss on a concrete
two-set cache. -/
def c4Cache : Cache := cacheSetUp 2 1 4 "no-write-allocate" "write-through" "lru"

theorem claim_C4_witness :
    cacheSimulator c4Cache 's' 4 =
      { c4Cache with storeCount := c4Cache.storeCount + 1,
                     storeMisses := c4Cache.storeMisses + 1,
                     totalCycles := c4Cache.totalCycles + 100 } :=
  claim_C4_no_write_allocate_store_miss c4Cache 's' 4 (by decide) rfl (by decide)

/-- Claim C5: for every non-empty set, `findReplacementBlock` always returns a
way position inside the set; if the set contains an invalid slot, it returns
the first such slot (in way order) and does not change the cache at all
(no eviction cost); otherwise it returns the first minimum of
`lastAccessTimestamp` (LRU) resp. `loadTimestamp` (FIFO), ties broken by the
lowest way position thanks to the strict `<` comparison. -/
theorem claim_C5_replacement (cache : Cache) (index : Nat)
    (hne : getSet cache index ≠ []) :
    (findReplacementBlock index cache).2 < (getSet cache index).length ∧
    ((∃ i, i < (getSet cache index).length ∧
        ((getSet cache index).getD i initSlot).valid = false) →
      isFirstInvalid (getSet cache index) (findReplacementBlock index cache).2 ∧
      (findReplacementBlock index cache).1 = cache) ∧
    ((∀ i, i < (getSet cache index).length →
        ((getSet cache index).getD i initSlot).valid = true) →
      (cache.handleEviction = "lru" →
        isFirstMinBy (fun s => s.access_ts) (getSet cache index)
          (findReplacementBlock index cache).2) ∧
      (cache.handleEviction = "fifo" →
        isFirstMinBy (fun s => s.load_ts) (getSet cache index)
          (findReplacementBlock index cache).2)) := by
  cases hfind : (getSet cache index).findIdx? (fun slot => !slot.valid) with
  | some i =>
      have heq := frb_of_invalid cache index i hfind
      have hfi := firstInvalid_of_findIdx?_some _ _ hfind
      rw [heq]
      refine ⟨hfi.1, fun _ => ⟨hfi, rfl⟩, fun hall => ?_⟩
      have h1 := hall i hfi.1
      rw [hfi.2.1] at h1
      exact absurd h1 (by decide)
  | none =>
      have hsnd := frb_snd_of_none cache index hfind
      have hall := all_valid_of_findIdx?_none _ hfind
      rw [hsnd]
      refine ⟨policyVictim_lt cache _ hne, ?_, fun _ => ⟨?_, ?_⟩⟩
      · rintro ⟨i, hi, hinv⟩
        have h1 := hall i hi
        rw [hinv] at h1
        exact absurd h1 (by decide)
      · intro hpol
        simpa [policyVictim, hpol] using lruVictim_first_min _ hne
      · intro hpol
        have hnl : ¬cache.handleEviction = "lru" := by
          rw [hpol]
          decide
        simpa [policyVictim, hnl] using fifoVictim_first_min _ hne

/-- Claim C5 (witness): the replacement claim on the freshly initialized
single-slot cache, whose only slot is invalid. -/
theorem claim_C5_witness :
    getSet c1Cache 0 ≠ [] ∧
    (findReplacementBlock 0 c1Cache).2 < (getSet c1Cache 0).length ∧
    isFirstInvalid (getSet c1Cache 0) (findReplacementBlock 0 c1Cache).2 ∧
    (findReplacementBlock 0 c1Cache).1 = c1Cache := by
  have h := claim_C5_replacement c1Cache 0 (by decide)
  have hinv := h.2.1 ⟨0, by decide, by decide⟩
  exact ⟨by decide, h.1, hinv.1, hinv.2⟩

/-- Claim C2: when every slot of the target set is valid (so replacement must
evict), a dirty victim under write-back is flushed: exactly
`100 * blockSizeBytes / 4` cycles are added to `totalCycles` (exactly once)
and the victim valid and dirty flags are reset; a clean victim under
write-back, or any victim under write-through, changes nothing (in
particular, charges no flush cycles). -/
theorem claim_C2_dirty_eviction (cache : Cache) (index : Nat)
    (hidx : index < cache.sets.length)
    (hne : getSet cache index ≠ [])
    (hall : ∀ i, i < (getSet cache index).length →
      ((getSet cache index).getD i initSlot).valid = true) :
    (cache.handleWrite = "write-back" →
      ((getSet cache index).getD (policyVictim cache (getSet cache index)) initSlot).dirty
        = true →
      (findReplacementBlock index cache).1.totalCycles
        = cache.totalCycles + ((100 * cache.numBytes / 4 : Nat) : Int) ∧
      (getSlot (findReplacementBlock index cache).1 index
        (policyVictim cache (getSet cache index))).valid = false ∧
      (getSlot (findReplacementBlock index cache).1 index
        (policyVictim cache (getSet cache index))).dirty = false) ∧
    (cache.handleWrite = "write-back" →
      ((getSet cache index).getD (policyVictim cache (getSet cache index)) initSlot).dirty
        = false →
      (findReplacementBlock index cache).1 = cache) ∧
    (cache.handleWrite = "write-through" →
      (findReplacementBlock index cache).1 = cache) := by
  have hnone := findIdx?_none_of_all_valid _ hall
  have hv : policyVictim cache (getSet cache index) < (getSet cache index).length :=
    policyVictim_lt cache _ hne
  refine ⟨?_, ?_, ?_⟩
  · intro hwb hd
    rw [frb_evict_dirty cache index hnone hd hwb]
    refine ⟨rfl, ?_, ?_⟩
    · rw [getSlot_after_set cache index _ _ _ hidx, getD_set_self _ _ _ _ hv]
    · rw [getSlot_after_set cache index _ _ _ hidx, getD_set_self _ _ _ _ hv]
  · intro _hwb hd
    have hcl : ¬(((getSet cache index).getD (policyVictim cache (getSet cache index))
        initSlot).dirty = true ∧ cache.handleWrite = "write-back") := by
      rintro ⟨h1, _⟩
      rw [hd] at h1
      exact absurd h1 (by decide)
    rw [frb_evict_clean cache index hnone hcl]
  · intro hwt
    have hcl : ¬(((getSet cache index).getD (policyVictim cache (getSet cache index))
        initSlot).dirty = true ∧ cache.handleWrite = "write-back") := by
      rintro ⟨_, h2⟩
      rw [hwt] at h2
      exact absurd h2 (by decide)
    rw [frb_evict_clean cache index hnone hcl]

/-- Cache state used by the C2 witness: a full (single-slot) set holding a
dirty valid block under write-back + lru. -/
def c2Cache : Cache :=
  { numSets := 1, numBlocks := 1, numBytes := 4,
    handleMiss := "write-allocate", handleWrite := "write-back", handleEviction := "lru",
    sets := [[{ tag := 0, valid := true, dirty := true, load_ts := 0, access_ts := 101 }]],
    loadCount := 0, storeCount := 1, loadHits := 0, loadMisses := 0,
    storeHits := 0, storeMisses := 1, totalCycles := 101 }

/-- Claim C2 (witness): the dirty-eviction flush on a concrete full set with a
dirty victim: 100 cycles charged, victim reset. -/
theorem claim_C2_witness :
    c2Cache.handleWrite = "write-back" ∧
    ((getSet c2Cache 0).getD (policyVictim c2Cache (getSet c2Cache 0)) initSlot).dirty = true ∧
    (findReplacementBlock 0 c2Cache).1.totalCycles
      = c2Cache.totalCycles + ((100 * c2Cache.numBytes / 4 : Nat) : Int) ∧
    (getSlot (findReplacementBlock 0 c2Cache).1 0
      (policyVictim c2Cache (getSet c2Cache 0))).valid = false ∧
    (getSlot (findReplacementBlock 0 c2Cache).1 0
      (policyVictim c2Cache (getSet c2Cache 0))).dirty = false := by
  have h := (claim_C2_dirty_eviction c2Cache 0 (by decide) (by decide)
    (by decide)).1 rfl (by decide)
  exact ⟨rfl, by decide, h.1, h.2.1, h.2.2⟩

theorem findBlock_some_spec (tag : Int) (index : Nat) (cache : Cache) (w : Nat)
    (h : findBlock tag index cache = some w) :
    w < (getSet cache index).length ∧ (getSlot cache index w).valid = true ∧
    (getSlot cache index w).tag = tag := by
  rw [findBlock, List.findIdx?_eq_some_iff_getElem] at h
  obtain ⟨hw, hp, _⟩ := h
  simp only [Bool.and_eq_true, beq_iff_eq] at hp
  refine ⟨hw, ?_, ?_⟩
  · simp only [getSlot]
    rw [List.getD_eq_getElem _ _ hw]
    exact hp.1
  · simp only [getSlot]
    rw [List.getD_eq_getElem _ _ hw]
    exact hp.2

theorem getSet_eq (cache : Cache) (index : Nat) :
    getSet cache index = cache.sets.getD index [] := rfl

theorem modifySlot_sets (cache : Cache) (index w : Nat) (f : Slot → Slot) :
    (modifySlot cache index w f).sets
      = cache.sets.set index ((getSet cache index).set w (f (getSlot cache index w))) := rfl

theorem modifySlot_sets_length (cache : Cache) (index w : Nat) (f : Slot → Slot) :
    (modifySlot cache index w f).sets.length = cache.sets.length := by
  rw [modifySlot_sets, List.length_set]

theorem getSet_modifySlot_length (cache : Cache) (index w : Nat) (f : Slot → Slot) :
    (getSet (modifySlot cache index w f) index).length = (getSet cache index).length := by
  rw [getSet_eq, modifySlot_sets]
  by_cases h : index < cache.sets.length
  · rw [getD_set_self _ _ _ _ h, List.length_set]
  · rw [List.set_eq_of_length_le (Nat.le_of_not_lt h)]
    exact rfl

theorem getSlot_modifySlot_self (cache : Cache) (index w : Nat) (f : Slot → Slot)
    (hidx : index < cache.sets.length) (hw : w < (getSet cache index).length) :
    getSlot (modifySlot cache index w f) index w = f (getSlot cache index w) := by
  simp only [getSlot]
  rw [getSet_eq, modifySlot_sets, getD_set_self _ _ _ _ hidx, getD_set_self _ _ _ _ hw]
  exact rfl

theorem getSlot_update_cycles (cache : Cache) (tc : Int) (index w : Nat) :
    getSlot { cache with totalCycles := tc } index w = getSlot cache index w := rfl

theorem handleStore_hit_wb (cache : Cache) (index : Nat) (tag : Int) (w : Nat)
    (hwb : cache.handleWrite = "write-back") :
    handleStore cache index tag (some w) =
      { modifySlot (modifySlot
          { cache with storeCount := cache.storeCount + 1, storeHits := cache.storeHits + 1 }
          index w (fun s => { s with access_ts := toU32 cache.totalCycles }))
          index w (fun s => { s with dirty := true })
        with totalCycles := cache.totalCycles + 1 } := by
  simp only [handleStore]
  rw [if_pos hwb]
  exact rfl

theorem handleStore_hit_wt (cache : Cache) (index : Nat) (tag : Int) (w : Nat)
    (hwt : ¬cache.handleWrite = "write-back") :
    handleStore cache index tag (some w) =
      { modifySlot
          { cache with storeCount := cache.storeCount + 1, storeHits := cache.storeHits + 1 }
          index w (fun s => { s with access_ts := toU32 cache.totalCycles })
        with totalCycles := cache.totalCycles + 100 } := by
  simp only [handleStore]
  rw [if_neg hwt]
  exact rfl

/-- Claim C7: a store hit increments storeHits and storeCount and sets the
`lastAccessTimestamp` of the hit slot to `totalCycles` unconditionally — regardless of
the eviction policy, and before the cycle cost of this access is added.  Under
write-back the slot is marked dirty and 1 cycle is added; under
write-through 100 cycles are added and the dirty flag is left unchanged
(hence it remains false whenever it was false). -/
theorem claim_C7_store_hit (cache : Cache) (index : Nat) (tag : Int) (w : Nat)
    (hidx : index < cache.sets.length)
    (hhit : findBlock tag index cache = some w)
    (hlo : 0 ≤ cache.totalCycles) (hhi : cache.totalCycles < 4294967296) :
    (handleStore cache index tag (some w)).storeHits = cache.storeHits + 1 ∧
    (handleStore cache index tag (some w)).storeCount = cache.storeCount + 1 ∧
    (getSlot (handleStore cache index tag (some w)) index w).access_ts = cache.totalCycles ∧
    (cache.handleWrite = "write-back" →
      (getSlot (handleStore cache index tag (some w)) index w).dirty = true ∧
      (handleStore cache index tag (some w)).totalCycles = cache.totalCycles + 1) ∧
    (cache.handleWrite = "write-through" →
      (handleStore cache index tag (some w)).totalCycles = cache.totalCycles + 100 ∧
      (getSlot (handleStore cache index tag (some w)) index w).dirty
        = (getSlot cache index w).dirty) := by
  have hw := (findBlock_some_spec tag index cache w hhit).1
  have ht : toU32 cache.totalCycles = cache.totalCycles := Int.emod_eq_of_lt hlo hhi
  by_cases hwb : cache.handleWrite = "write-back"
  · rw [handleStore_hit_wb cache index tag w hwb]
    have hidx2 : index < (modifySlot
        { cache with storeCount := cache.storeCount + 1, storeHits := cache.storeHits + 1 }
        index w (fun s => { s with access_ts := toU32 cache.totalCycles })).sets.length := by
      rw [modifySlot_sets_length]
      exact hidx
    have hw2 : w < (getSet (modifySlot
        { cache with storeCount := cache.storeCount + 1, storeHits := cache.storeHits + 1 }
        index w (fun s => { s with access_ts := toU32 cache.totalCycles })) index).length := by
      rw [getSet_modifySlot_length]
      exact hw
    have hC2idx : index <
        ({ cache with storeCount := cache.storeCount + 1, storeHits := cache.storeHits + 1 }
          : Cache).sets.length := hidx
    have hC2w : w <
        (getSet { cache with storeCount := cache.storeCount + 1, storeHits := cache.storeHits + 1 }
          index).length := hw
    refine ⟨rfl, rfl, ?_, fun _ => ⟨?_, rfl⟩, fun hwt => ?_⟩
    · rw [getSlot_update_cycles, getSlot_modifySlot_self _ _ _ _ hidx2 hw2,
        getSlot_modifySlot_self _ _ _ _ hC2idx hC2w]
      exact ht
    · rw [getSlot_update_cycles, getSlot_modifySlot_self _ _ _ _ hidx2 hw2]
    · rw [hwb] at hwt
      exact absurd hwt (by decide)
  · rw [handleStore_hit_wt cache index tag w hwb]
    have hC2idx : index <
        ({ cache with storeCount := cache.storeCount + 1, storeHits := cache.storeHits + 1 }
          : Cache).sets.length := hidx
    have hC2w : w <
        (getSet { cache with storeCount := cache.storeCount + 1, storeHits := cache.storeHits + 1 }
          index).length := hw
    refine ⟨rfl, rfl, ?_, fun h => absurd h hwb, fun _ => ⟨rfl, ?_⟩⟩
    · rw [getSlot_update_cycles, getSlot_modifySlot_self _ _ _ _ hC2idx hC2w]
      exact ht
    · rw [getSlot_update_cycles, getSlot_modifySlot_self _ _ _ _ hC2idx hC2w]
      exact rfl

/-- Cache state used by the C7 witness: one valid clean block with tag 3
under write-back + lru. -/
def c7Cache : Cache :=
  { numSets := 1, numBlocks := 1, numBytes := 4,
    handleMiss := "write-allocate", handleWrite := "write-back", handleEviction := "lru",
    sets := [[{ tag := 3, valid := true, dirty := false, load_ts := 0, access_ts := 101 }]],
    loadCount := 1, storeCount := 0, loadHits := 0, loadMisses := 1,
    storeHits := 0, storeMisses := 0, totalCycles := 101 }

/-- Claim C7 (witness): the store-hit claim on a concrete hit. -/
theorem claim_C7_witness :
    (handleStore c7Cache 0 3 (some 0)).storeHits = c7Cache.storeHits + 1 ∧
    (handleStore c7Cache 0 3 (some 0)).storeCount = c7Cache.storeCount + 1 ∧
    (getSlot (handleStore c7Cache 0 3 (some 0)) 0 0).access_ts = c7Cache.totalCycles ∧
    (c7Cache.handleWrite = "write-back" →
      (getSlot (handleStore c7Cache 0 3 (some 0)) 0 0).dirty = true ∧
      (handleStore c7Cache 0 3 (some 0)).totalCycles = c7Cache.totalCycles + 1) ∧
    (c7Cache.handleWrite = "write-through" →
      (handleStore c7Cache 0 3 (some 0)).totalCycles = c7Cache.totalCycles + 100 ∧
      (getSlot (handleStore c7Cache 0 3 (some 0)) 0 0).dirty = (getSlot c7Cache 0 0).dirty) :=
  claim_C7_store_hit c7Cache 0 3 0 (by decide) (by decide) (by decide) (by decide)

/-- Well-formedness of the dirty flags, true in every reachable state: a
dirty slot is valid and only exists under write-back (write-through never
sets dirty; flushes clear valid and dirty together). -/
def cleanInv (cache : Cache) : Prop :=
  ∀ set ∈ cache.sets, ∀ s ∈ set,
    s.dirty = true → (s.valid = true ∧ cache.handleWrite = "write-back")

theorem cleanInv_slot (cache : Cache) (hclean : cleanInv cache) (index w : Nat)
    (hidx : index < cache.sets.length) (hw : w < (getSet cache index).length) :
    (getSlot cache index w).dirty = true →
      (getSlot cache index w).valid = true ∧ cache.handleWrite = "write-back" := by
  intro hd
  have hmem1 : getSet cache index ∈ cache.sets := by
    rw [getSet_eq, List.getD_eq_getElem _ _ hidx]
    exact List.getElem_mem _
  have hmem2 : getSlot cache index w ∈ getSet cache index := by
    simp only [getSlot]
    rw [List.getD_eq_getElem _ _ hw]
    exact List.getElem_mem _
  exact hclean _ hmem1 _ hmem2 hd

theorem frb_fst_frame (cache : Cache) (index : Nat) :
    (findReplacementBlock index cache).1.numBytes = cache.numBytes ∧
    (findReplacementBlock index cache).1.handleMiss = cache.handleMiss ∧
    (findReplacementBlock index cache).1.handleWrite = cache.handleWrite ∧
    (findReplacementBlock index cache).1.handleEviction = cache.handleEviction ∧
    (findReplacementBlock index cache).1.loadCount = cache.loadCount ∧
    (findReplacementBlock index cache).1.storeCount = cache.storeCount ∧
    (findReplacementBlock index cache).1.loadHits = cache.loadHits ∧
    (findReplacementBlock index cache).1.loadMisses = cache.loadMisses ∧
    (findReplacementBlock index cache).1.storeHits = cache.storeHits ∧
    (findReplacementBlock index cache).1.storeMisses = cache.storeMisses ∧
    (findReplacementBlock index cache).1.sets.length = cache.sets.length ∧
    ((findReplacementBlock index cache).1.totalCycles = cache.totalCycles ∨
     (findReplacementBlock index cache).1.totalCycles
       = cache.totalCycles + ((100 * cache.numBytes / 4 : Nat) : Int)) := by
  cases hfind : (getSet cache index).findIdx? (fun slot => !slot.valid) with
  | some i =>
      rw [frb_of_invalid cache index i hfind]
      exact ⟨rfl, rfl, rfl, rfl, rfl, rfl, rfl, rfl, rfl, rfl, rfl, Or.inl rfl⟩
  | none =>
      by_cases hc : ((getSet cache index).getD (policyVictim cache (getSet cache index))
          initSlot).dirty = true ∧ cache.handleWrite = "write-back"
      · rw [frb_evict_dirty cache index hfind hc.1 hc.2]
        exact ⟨rfl, rfl, rfl, rfl, rfl, rfl, rfl, rfl, rfl, rfl,
          List.length_set _ _ _, Or.inr rfl⟩
      · rw [frb_evict_clean cache index hfind hc]
        exact ⟨rfl, rfl, rfl, rfl, rfl, rfl, rfl, rfl, rfl, rfl, rfl, Or.inl rfl⟩

theorem frb_snd_lt_after (cache : Cache) (index : Nat)
    (hidx : index < cache.sets.length) (hne : getSet cache index ≠ []) :
    (findReplacementBlock index cache).2
      < ((findReplacementBlock index cache).1.sets.getD index []).length := by
  cases hfind : (getSet cache index).findIdx? (fun slot => !slot.valid) with
  | some i =>
      rw [frb_of_invalid cache index i hfind]
      exact (firstInvalid_of_findIdx?_some _ _ hfind).1
  | none =>
      have hv := policyVictim_lt cache (getSet cache index) hne
      by_cases hc : ((getSet cache index).getD (policyVictim cache (getSet cache index))
          initSlot).dirty = true ∧ cache.handleWrite = "write-back"
      · rw [frb_evict_dirty cache index hfind hc.1 hc.2]
        dsimp only
        rw [getD_set_self _ _ _ _ hidx, List.length_set]
        exact hv
      · rw [frb_evict_clean cache index hfind hc]
        exact hv

theorem frb_chosen_dirty (cache : Cache) (index : Nat)
    (hidx : index < cache.sets.length) (hne : getSet cache index ≠ [])
    (hclean : cleanInv cache) :
    (((findReplacementBlock index cache).1.sets.getD index []).getD
        (findReplacementBlock index cache).2 initSlot).dirty = false := by
  cases hfind : (getSet cache index).findIdx? (fun slot => !slot.valid) with
  | some i =>
      rw [frb_of_invalid cache index i hfind]
      have hfi := firstInvalid_of_findIdx?_some _ _ hfind
      cases hd : (getSlot cache index i).dirty with
      | false => exact hd
      | true =>
          have hcontra := (cleanInv_slot cache hclean index i hidx hfi.1 hd).1
          have hinv : (getSlot cache index i).valid = false := hfi.2.1
          rw [hinv] at hcontra
          exact absurd hcontra (by decide)
  | none =>
      have hv := policyVictim_lt cache (getSet cache index) hne
      by_cases hc : ((getSet cache index).getD (policyVictim cache (getSet cache index))
          initSlot).dirty = true ∧ cache.handleWrite = "write-back"
      · rw [frb_evict_dirty cache index hfind hc.1 hc.2]
        dsimp only
        rw [getD_set_self _ _ _ _ hidx, getD_set_self _ _ _ _ hv]
      · rw [frb_evict_clean cache index hfind hc]
        cases hd : (getSlot cache index (policyVictim cache (getSet cache index))).dirty with
        | false => exact hd
        | true =>
            have hwb := (cleanInv_slot cache hclean index _ hidx hv hd).2
            exact absurd ⟨hd, hwb⟩ hc

theorem modifySlot_totalCycles (cache : Cache) (index w : Nat) (f : Slot → Slot) :
    (modifySlot cache index w f).totalCycles = cache.totalCycles := rfl

theorem update_cycles_totalCycles (cache : Cache) (tc : Int) :
    ({ cache with totalCycles := tc } : Cache).totalCycles = tc := rfl

theorem install_getSlot (c : Cache) (index w : Nat) (f : Slot → Slot) (tc : Int)
    (hidx : index < c.sets.length) (hw : w < (getSet c index).length) :
    getSlot (modifySlot { c with totalCycles := tc } index w f) index w
      = f (getSlot c index w) := by
  have h1 : index < ({ c with totalCycles := tc } : Cache).sets.length := hidx
  have h2 : w < (getSet { c with totalCycles := tc } index).length := hw
  rw [getSlot_modifySlot_self _ _ _ _ h1 h2]
  exact rfl

/-- The statistics/cycle update a load miss performs before calling the
replacement engine (`loadMisses++`, `loadCount++`, fetch cost). -/
def missState (cache : Cache) : Cache :=
  { cache with loadCount := cache.loadCount + 1, loadMisses := cache.loadMisses + 1, totalCycles := cache.totalCycles + ((100 * cache.numBytes / 4 : Nat) : Int) }

theorem frb_snd_lt (cache : Cache) (index : Nat) (hne : getSet cache index ≠ []) :
    (findReplacementBlock index cache).2 < (getSet cache index).length := by
  cases hfind : (getSet cache index).findIdx? (fun slot => !slot.valid) with
  | some i =>
      rw [frb_of_invalid cache index i hfind]
      exact (firstInvalid_of_findIdx?_some _ _ hfind).1
  | none =>
      rw [frb_snd_of_none cache index hfind]
      exact policyVictim_lt cache _ hne

theorem handleLoad_hit_lru (cache : Cache) (index : Nat) (tag : Int) (w : Nat)
    (hpol : cache.handleEviction = "lru") :
    handleLoad cache index tag (some w) =
      modifySlot { cache with loadCount := cache.loadCount + 1, loadHits := cache.loadHits + 1, totalCycles := cache.totalCycles + 1 }
        index w (fun s => { s with access_ts := toU32 (cache.totalCycles + 1) }) := by
  simp only [handleLoad]
  rw [if_pos hpol]

theorem handleLoad_hit_fifo (cache : Cache) (index : Nat) (tag : Int) (w : Nat)
    (hpol : ¬cache.handleEviction = "lru") :
    handleLoad cache index tag (some w) =
      { cache with loadCount := cache.loadCount + 1, loadHits := cache.loadHits + 1, totalCycles := cache.totalCycles + 1 } := by
  simp only [handleLoad]
  rw [if_neg hpol]

theorem handleLoad_miss_lru (cache : Cache) (index : Nat) (tag : Int)
    (hpol : cache.handleEviction = "lru") :
    handleLoad cache index tag none =
      modifySlot { (findReplacementBlock index (missState cache)).1 with totalCycles := (findReplacementBlock index (missState cache)).1.totalCycles + 1 }
        index (findReplacementBlock index (missState cache)).2
        (fun s => { s with valid := true, tag := tag, access_ts := toU32 ((findReplacementBlock index (missState cache)).1.totalCycles + 1) }) := by
  simp only [handleLoad, missState]
  rw [if_pos hpol]

theorem handleLoad_miss_fifo (cache : Cache) (index : Nat) (tag : Int)
    (hpol : ¬cache.handleEviction = "lru") :
    handleLoad cache index tag none =
      modifySlot { (findReplacementBlock index (missState cache)).1 with totalCycles := (findReplacementBlock index (missState cache)).1.totalCycles + 1 }
        index (findReplacementBlock index (missState cache)).2
        (fun s => { s with valid := true, tag := tag, load_ts := toU32 ((findReplacementBlock index (missState cache)).1.totalCycles + 1) }) := by
  simp only [handleLoad, missState]
  rw [if_neg hpol]

/-- Claim C6: a load hit increments loadHits/loadCount and adds exactly 1
cycle; under LRU the `lastAccessTimestamp` of the hit slot becomes the
post-increment totalCycles, under FIFO no slot changes at all.  A load miss
increments loadMisses/loadCount, adds the `100 * blockSizeBytes / 4` fetch
cost, obtains a replacement slot (possibly adding the same amount again as
a flush cost), adds 1 installation cycle, and installs the new tag in a
valid slot whose policy timestamp is the final totalCycles and whose dirty
flag is false.  The hypotheses are the dirty-flag well-formedness invariant
of reachable states (`cleanInv`) and enough cycle headroom that the
`uint32_t` timestamp conversion is lossless. -/
theorem claim_C6_load (cache : Cache) (index : Nat) (tag : Int)
    (hidx : index < cache.sets.length)
    (hne : getSet cache index ≠ [])
    (hclean : cleanInv cache)
    (hlo : 0 ≤ cache.totalCycles)
    (hhi : cache.totalCycles + ((100 * cache.numBytes / 4 : Nat) : Int)
        + ((100 * cache.numBytes / 4 : Nat) : Int) + 1 < 4294967296) :
    (∀ w, findBlock tag index cache = some w →
      (handleLoad cache index tag (some w)).loadHits = cache.loadHits + 1 ∧
      (handleLoad cache index tag (some w)).loadCount = cache.loadCount + 1 ∧
      (handleLoad cache index tag (some w)).totalCycles = cache.totalCycles + 1 ∧
      (cache.handleEviction = "lru" →
        (getSlot (handleLoad cache index tag (some w)) index w).access_ts
          = cache.totalCycles + 1) ∧
      (cache.handleEviction ≠ "lru" →
        (handleLoad cache index tag (some w)).sets = cache.sets)) ∧
    (findBlock tag index cache = none →
      (handleLoad cache index tag none).loadMisses = cache.loadMisses + 1 ∧
      (handleLoad cache index tag none).loadCount = cache.loadCount + 1 ∧
      ((handleLoad cache index tag none).totalCycles
          = cache.totalCycles + ((100 * cache.numBytes / 4 : Nat) : Int) + 1 ∨
       (handleLoad cache index tag none).totalCycles
          = cache.totalCycles + ((100 * cache.numBytes / 4 : Nat) : Int)
              + ((100 * cache.numBytes / 4 : Nat) : Int) + 1) ∧
      (∃ w, w < (getSet cache index).length ∧
        (getSlot (handleLoad cache index tag none) index w).valid = true ∧
        (getSlot (handleLoad cache index tag none) index w).tag = tag ∧
        (getSlot (handleLoad cache index tag none) index w).dirty = false ∧
        (cache.handleEviction = "lru" →
          (getSlot (handleLoad cache index tag none) index w).access_ts
            = (handleLoad cache index tag none).totalCycles) ∧
        (cache.handleEviction ≠ "lru" →
          (getSlot (handleLoad cache index tag none) index w).load_ts
            = (handleLoad cache index tag none).totalCycles))) := by
  have hf : 0 ≤ ((100 * cache.numBytes / 4 : Nat) : Int) := Int.natCast_nonneg _
  constructor
  · intro w hhit
    have hw := (findBlock_some_spec tag index cache w hhit).1
    have hbound : toU32 (cache.totalCycles + 1) = cache.totalCycles + 1 := by
      simp only [toU32]
      exact Int.emod_eq_of_lt (by omega) (by omega)
    by_cases hpol : cache.handleEviction = "lru"
    · rw [handleLoad_hit_lru cache index tag w hpol]
      have h1 : index < ({ cache with loadCount := cache.loadCount + 1, loadHits := cache.loadHits + 1, totalCycles := cache.totalCycles + 1 } : Cache).sets.length := hidx
      have h2 : w < (getSet { cache with loadCount := cache.loadCount + 1, loadHits := cache.loadHits + 1, totalCycles := cache.totalCycles + 1 } index).length := hw
      refine ⟨rfl, rfl, rfl, fun _ => ?_, fun hnp => absurd hpol hnp⟩
      rw [getSlot_modifySlot_self _ _ _ _ h1 h2]
      exact hbound
    · rw [handleLoad_hit_fifo cache index tag w hpol]
      exact ⟨rfl, rfl, rfl, fun hp => absurd hp hpol, fun _ => rfl⟩
  · intro _hmiss
    have hidxm : index < (missState cache).sets.length := hidx
    have hnem : getSet (missState cache) index ≠ [] := hne
    have hcleanm : cleanInv (missState cache) := hclean
    have hframe := frb_fst_frame (missState cache) index
    obtain ⟨_, _, _, _, hlc, _, _, hlm, _, _, hlen, hcyc⟩ := hframe
    have hidxR : index < (findReplacementBlock index (missState cache)).1.sets.length := by
      rw [hlen]
      exact hidx
    have hwR : (findReplacementBlock index (missState cache)).2
        < (getSet (findReplacementBlock index (missState cache)).1 index).length :=
      frb_snd_lt_after (missState cache) index hidxm hnem
    have hdirty := frb_chosen_dirty (missState cache) index hidxm hnem hcleanm
    have hcycle_eq : ∀ t : Int,
        (t = cache.totalCycles + ((100 * cache.numBytes / 4 : Nat) : Int) ∨
         t = cache.totalCycles + ((100 * cache.numBytes / 4 : Nat) : Int)
           + ((100 * cache.numBytes / 4 : Nat) : Int)) →
        toU32 (t + 1) = t + 1 := by
      intro t htc
      simp only [toU32]
      rcases htc with h | h <;> rw [h] <;> exact Int.emod_eq_of_lt (by omega) (by omega)
    by_cases hpol : cache.handleEviction = "lru"
    · rw [handleLoad_miss_lru cache index tag hpol]
      refine ⟨hlm, hlc, ?_, (findReplacementBlock index (missState cache)).2, ?_, ?_, ?_, ?_,
        fun _ => ?_, fun hnp => absurd hpol hnp⟩
      · rcases hcyc with h | h
        · exact Or.inl (congrArg (fun t => t + 1) h)
        · exact Or.inr (congrArg (fun t => t + 1) h)
      · exact frb_snd_lt (missState cache) index hnem
      · rw [install_getSlot _ _ _ _ _ hidxR hwR]
      · rw [install_getSlot _ _ _ _ _ hidxR hwR]
      · rw [install_getSlot _ _ _ _ _ hidxR hwR]
        exact hdirty
      · rw [install_getSlot _ _ _ _ _ hidxR hwR, modifySlot_totalCycles,
          update_cycles_totalCycles]
        exact hcycle_eq _ hcyc
    · rw [handleLoad_miss_fifo cache index tag hpol]
      refine ⟨hlm, hlc, ?_, (findReplacementBlock index (missState cache)).2, ?_, ?_, ?_, ?_,
        fun hp => absurd hp hpol, fun _ => ?_⟩
      · rcases hcyc with h | h
        · exact Or.inl (congrArg (fun t => t + 1) h)
        · exact Or.inr (congrArg (fun t => t + 1) h)
      · exact frb_snd_lt (missState cache) index hnem
      · rw [install_getSlot _ _ _ _ _ hidxR hwR]
      · rw [install_getSlot _ _ _ _ _ hidxR hwR]
      · rw [install_getSlot _ _ _ _ _ hidxR hwR]
        exact hdirty
      · rw [install_getSlot _ _ _ _ _ hidxR hwR, modifySlot_totalCycles,
          update_cycles_totalCycles]
        exact hcycle_eq _ hcyc

/-- Claim C6 (witness): the load claim instantiated on the freshly
initialized single-slot lru/write-back cache at tag 1 (a miss). -/
theorem claim_C6_witness :
    (∀ w, findBlock 1 0 c1Cache = some w →
      (handleLoad c1Cache 0 1 (some w)).loadHits = c1Cache.loadHits + 1 ∧
      (handleLoad c1Cache 0 1 (some w)).loadCount = c1Cache.loadCount + 1 ∧
      (handleLoad c1Cache 0 1 (some w)).totalCycles = c1Cache.totalCycles + 1 ∧
      (c1Cache.handleEviction = "lru" →
        (getSlot (handleLoad c1Cache 0 1 (some w)) 0 w).access_ts
          = c1Cache.totalCycles + 1) ∧
      (c1Cache.handleEviction ≠ "lru" →
        (handleLoad c1Cache 0 1 (some w)).sets = c1Cache.sets)) ∧
    (findBlock 1 0 c1Cache = none →
      (handleLoad c1Cache 0 1 none).loadMisses = c1Cache.loadMisses + 1 ∧
      (handleLoad c1Cache 0 1 none).loadCount = c1Cache.loadCount + 1 ∧
      ((handleLoad c1Cache 0 1 none).totalCycles
          = c1Cache.totalCycles + ((100 * c1Cache.numBytes / 4 : Nat) : Int) + 1 ∨
       (handleLoad c1Cache 0 1 none).totalCycles
          = c1Cache.totalCycles + ((100 * c1Cache.numBytes / 4 : Nat) : Int)
              + ((100 * c1Cache.numBytes / 4 : Nat) : Int) + 1) ∧
      (∃ w, w < (getSet c1Cache 0).length ∧
        (getSlot (handleLoad c1Cache 0 1 none) 0 w).valid = true ∧
        (getSlot (handleLoad c1Cache 0 1 none) 0 w).tag = 1 ∧
        (getSlot (handleLoad c1Cache 0 1 none) 0 w).dirty = false ∧
        (c1Cache.handleEviction = "lru" →
          (getSlot (handleLoad c1Cache 0 1 none) 0 w).access_ts
            = (handleLoad c1Cache 0 1 none).totalCycles) ∧
        (c1Cache.handleEviction ≠ "lru" →
          (getSlot (handleLoad c1Cache 0 1 none) 0 w).load_ts
            = (handleLoad c1Cache 0 1 none).totalCycles))) :=
  claim_C6_load c1Cache 0 1 (by decide) (by decide)
    (by simp only [cleanInv]; decide) (by decide) (by decide)

/-- All seven statistics counters are non-negative. -/
def statsNonneg (c : Cache) : Prop :=
  0 ≤ c.loadCount ∧ 0 ≤ c.storeCount ∧ 0 ≤ c.loadHits ∧ 0 ≤ c.loadMisses ∧
  0 ≤ c.storeHits ∧ 0 ≤ c.storeMisses ∧ 0 ≤ c.totalCycles

/-- Pointwise order on the seven statistics counters. -/
def statsLe (c d : Cache) : Prop :=
  c.loadCount ≤ d.loadCount ∧ c.storeCount ≤ d.storeCount ∧ c.loadHits ≤ d.loadHits ∧
  c.loadMisses ≤ d.loadMisses ∧ c.storeHits ≤ d.storeHits ∧
  c.storeMisses ≤ d.storeMisses ∧ c.totalCycles ≤ d.totalCycles

theorem int_le_succ (x : Int) : x ≤ x + 1 := by omega

theorem int_le_add_hundred (x : Int) : x ≤ x + 100 := by omega

theorem handleLoad_statsLe (cache : Cache) (index : Nat) (tag : Int) (hit : Option Nat) :
    statsLe cache (handleLoad cache index tag hit) := by
  cases hit with
  | some w =>
      by_cases hpol : cache.handleEviction = "lru"
      · rw [handleLoad_hit_lru cache index tag w hpol]
        exact ⟨int_le_succ _, le_refl _, int_le_succ _, le_refl _, le_refl _, le_refl _,
          int_le_succ _⟩
      · rw [handleLoad_hit_fifo cache index tag w hpol]
        exact ⟨int_le_succ _, le_refl _, int_le_succ _, le_refl _, le_refl _, le_refl _,
          int_le_succ _⟩
  | none =>
      have hf : 0 ≤ ((100 * cache.numBytes / 4 : Nat) : Int) := Int.natCast_nonneg _
      obtain ⟨_, _, _, _, hlc, hsc, hlh, hlm, hsh, hsm, _, hcyc⟩ :=
        frb_fst_frame (missState cache) index
      have hms : (missState cache).totalCycles
          = cache.totalCycles + ((100 * cache.numBytes / 4 : Nat) : Int) := rfl
      have hmb : (missState cache).numBytes = cache.numBytes := rfl
      rw [hms, hmb] at hcyc
      have hle : cache.totalCycles
          ≤ (findReplacementBlock index (missState cache)).1.totalCycles + 1 := by
        rcases hcyc with h | h <;> omega
      by_cases hpol : cache.handleEviction = "lru"
      · rw [handleLoad_miss_lru cache index tag hpol]
        exact ⟨le_trans (int_le_succ _) (le_of_eq hlc.symm), le_of_eq hsc.symm,
          le_of_eq hlh.symm, le_trans (int_le_succ _) (le_of_eq hlm.symm),
          le_of_eq hsh.symm, le_of_eq hsm.symm, hle⟩
      · rw [handleLoad_miss_fifo cache index tag hpol]
        exact ⟨le_trans (int_le_succ _) (le_of_eq hlc.symm), le_of_eq hsc.symm,
          le_of_eq hlh.symm, le_trans (int_le_succ _) (le_of_eq hlm.symm),
          le_of_eq hsh.symm, le_of_eq hsm.symm, hle⟩

/-- The statistics/cycle update a write-allocate store miss performs before
calling the replacement engine. -/
def storeMissState (cache : Cache) : Cache :=
  { cache with storeCount := cache.storeCount + 1, storeMisses := cache.storeMisses + 1, totalCycles := cache.totalCycles + ((100 * (cache.numBytes / 4) : Nat) : Int) }

theorem handleStore_miss_wa (cache : Cache) (index : Nat) (tag : Int)
    (hnwa : ¬cache.handleMiss = "no-write-allocate") :
    handleStore cache index tag none =
      (if cache.handleWrite = "write-back" then
        modifySlot
          (if cache.handleEviction = "lru" then
            modifySlot { (findReplacementBlock index (storeMissState cache)).1 with totalCycles := (findReplacementBlock index (storeMissState cache)).1.totalCycles + 1 }
              index (findReplacementBlock index (storeMissState cache)).2
              (fun s => { s with valid := true, tag := tag, access_ts := toU32 ((findReplacementBlock index (storeMissState cache)).1.totalCycles + 1) })
          else
            modifySlot { (findReplacementBlock index (storeMissState cache)).1 with totalCycles := (findReplacementBlock index (storeMissState cache)).1.totalCycles + 1 }
              index (findReplacementBlock index (storeMissState cache)).2
              (fun s => { s with valid := true, tag := tag, load_ts := toU32 ((findReplacementBlock index (storeMissState cache)).1.totalCycles + 1) }))
          index (findReplacementBlock index (storeMissState cache)).2
          (fun s => { s with dirty := true })
      else
        (if cache.handleEviction = "lru" then
          modifySlot { (findReplacementBlock index (storeMissState cache)).1 with totalCycles := (findReplacementBlock index (storeMissState cache)).1.totalCycles + 1 }
            index (findReplacementBlock index (storeMissState cache)).2
            (fun s => { s with valid := true, tag := tag, access_ts := toU32 ((findReplacementBlock index (storeMissState cache)).1.totalCycles + 1) })
        else
          modifySlot { (findReplacementBlock index (storeMissState cache)).1 with totalCycles := (findReplacementBlock index (storeMissState cache)).1.totalCycles + 1 }
            index (findReplacementBlock index (storeMissState cache)).2
            (fun s => { s with valid := true, tag := tag, load_ts := toU32 ((findReplacementBlock index (storeMissState cache)).1.totalCycles + 1) }))) := by
  simp only [handleStore, storeMissState]
  rw [if_neg hnwa]

theorem handleStore_statsLe (cache : Cache) (index : Nat) (tag : Int) (hit : Option Nat) :
    statsLe cache (handleStore cache index tag hit) := by
  cases hit with
  | some w =>
      by_cases hwb : cache.handleWrite = "write-back"
      · rw [handleStore_hit_wb cache index tag w hwb]
        exact ⟨le_refl _, int_le_succ _, le_refl _, le_refl _, int_le_succ _, le_refl _,
          int_le_succ _⟩
      · rw [handleStore_hit_wt cache index tag w hwb]
        exact ⟨le_refl _, int_le_succ _, le_refl _, le_refl _, int_le_succ _, le_refl _,
          int_le_add_hundred _⟩
  | none =>
      by_cases hnwa : cache.handleMiss = "no-write-allocate"
      · have heq : handleStore cache index tag none =
            { cache with storeCount := cache.storeCount + 1, storeMisses := cache.storeMisses + 1, totalCycles := cache.totalCycles + 100 } := by
          simp only [handleStore]
          rw [if_pos hnwa]
        rw [heq]
        exact ⟨le_refl _, int_le_succ _, le_refl _, le_refl _, le_refl _, int_le_succ _,
          int_le_add_hundred _⟩
      · rw [handleStore_miss_wa cache index tag hnwa]
        have hf : 0 ≤ ((100 * (cache.numBytes / 4) : Nat) : Int) := Int.natCast_nonneg _
        obtain ⟨_, _, _, _, hlc, hsc, hlh, hlm, hsh, hsm, _, hcyc⟩ :=
          frb_fst_frame (storeMissState cache) index
        have hms : (storeMissState cache).totalCycles
            = cache.totalCycles + ((100 * (cache.numBytes / 4) : Nat) : Int) := rfl
        have hmb : ((100 * (storeMissState cache).numBytes / 4 : Nat) : Int)
            = ((100 * cache.numBytes / 4 : Nat) : Int) := rfl
        have hf2 : 0 ≤ ((100 * cache.numBytes / 4 : Nat) : Int) := Int.natCast_nonneg _
        rw [hms, hmb] at hcyc
        have hle : cache.totalCycles
            ≤ (findReplacementBlock index (storeMissState cache)).1.totalCycles + 1 := by
          rcases hcyc with h | h <;> omega
        have hfin : statsLe cache (modifySlot { (findReplacementBlock index (storeMissState cache)).1 with totalCycles := (findReplacementBlock index (storeMissState cache)).1.totalCycles + 1 } index (findReplacementBlock index (storeMissState cache)).2 (fun s => { s with valid := true, tag := tag, access_ts := toU32 ((findReplacementBlock index (storeMissState cache)).1.totalCycles + 1) })) :=
          ⟨le_of_eq hlc.symm, le_trans (int_le_succ _) (le_of_eq hsc.symm),
            le_of_eq hlh.symm, le_of_eq hlm.symm, le_of_eq hsh.symm,
            le_trans (int_le_succ _) (le_of_eq hsm.symm), hle⟩
        have hfin2 : statsLe cache (modifySlot { (findReplacementBlock index (storeMissState cache)).1 with totalCycles := (findReplacementBlock index (storeMissState cache)).1.totalCycles + 1 } index (findReplacementBlock index (storeMissState cache)).2 (fun s => { s with valid := true, tag := tag, load_ts := toU32 ((findReplacementBlock index (storeMissState cache)).1.totalCycles + 1) })) :=
          ⟨le_of_eq hlc.symm, le_trans (int_le_succ _) (le_of_eq hsc.symm),
            le_of_eq hlh.symm, le_of_eq hlm.symm, le_of_eq hsh.symm,
            le_trans (int_le_succ _) (le_of_eq hsm.symm), hle⟩
        by_cases hwb : cache.handleWrite = "write-back"
        · rw [if_pos hwb]
          by_cases hpol : cache.handleEviction = "lru"
          · rw [if_pos hpol]
            exact hfin
          · rw [if_neg hpol]
            exact hfin2
        · rw [if_neg hwb]
          by_cases hpol : cache.handleEviction = "lru"
          · rw [if_pos hpol]
            exact hfin
          · rw [if_neg hpol]
            exact hfin2

theorem cacheSimulator_statsLe (cache : Cache) (c : Char) (a : Int) :
    statsLe cache (cacheSimulator cache c a) := by
  simp only [cacheSimulator]
  by_cases hc : c = 'l'
  · rw [if_pos hc]
    exact handleLoad_statsLe _ _ _ _
  · rw [if_neg hc]
    exact handleStore_statsLe _ _ _ _

theorem statsNonneg_mono (c d : Cache) (h : statsNonneg c) (hle : statsLe c d) :
    statsNonneg d := by
  obtain ⟨h1, h2, h3, h4, h5, h6, h7⟩ := h
  obtain ⟨g1, g2, g3, g4, g5, g6, g7⟩ := hle
  exact ⟨le_trans h1 g1, le_trans h2 g2, le_trans h3 g3, le_trans h4 g4,
    le_trans h5 g5, le_trans h6 g6, le_trans h7 g7⟩

theorem statsNonneg_runTrace (trace : List (Char × Nat)) (cache : Cache)
    (h : statsNonneg cache) : statsNonneg (runTrace cache trace) := by
  induction trace generalizing cache with
  | nil => exact h
  | cons p rest ih =>
      exact ih _ (statsNonneg_mono _ _ h (cacheSimulator_statsLe cache p.1 (int32OfUInt32 p.2)))

/-- Claim C9: in every state reachable from the freshly initialized cache,
all seven statistics (loadCount, storeCount, loadHits, loadMisses,
storeHits, storeMisses, totalCycles) are non-negative, and a further single
load or store access never decreases any of them (so they stay
non-negative). -/
theorem claim_C9_stats (ns nb nB : Nat) (hm hw he : String)
    (trace : List (Char × Nat)) (c : Char) (a : Nat) :
    statsNonneg (runTrace (cacheSetUp ns nb nB hm hw he) trace) ∧
    statsLe (runTrace (cacheSetUp ns nb nB hm hw he) trace)
      (cacheSimulator (runTrace (cacheSetUp ns nb nB hm hw he) trace) c
        (int32OfUInt32 a)) ∧
    statsNonneg (cacheSimulator (runTrace (cacheSetUp ns nb nB hm hw he) trace) c
      (int32OfUInt32 a)) := by
  have hinit : statsNonneg (cacheSetUp ns nb nB hm hw he) :=
    ⟨le_refl 0, le_refl 0, le_refl 0, le_refl 0, le_refl 0, le_refl 0, le_refl 0⟩
  have h1 := statsNonneg_runTrace trace _ hinit
  have h2 := cacheSimulator_statsLe (runTrace (cacheSetUp ns nb nB hm hw he) trace) c
    (int32OfUInt32 a)
  exact ⟨h1, h2, statsNonneg_mono _ _ h1 h2⟩

/-- Within each set, at most one valid slot carries any given tag. -/
def tagsUnique (cache : Cache) : Prop :=
  ∀ set ∈ cache.sets, ∀ i j : Nat, i < set.length → j < set.length → i ≠ j →
    (set.getD i initSlot).valid = true → (set.getD j initSlot).valid = true →
    (set.getD i initSlot).tag ≠ (set.getD j initSlot).tag

theorem getSet_out (cache : Cache) (index : Nat) (h : cache.sets.length ≤ index) :
    getSet cache index = [] := by
  rw [getSet_eq, List.getD_eq_getElem?_getD, List.getElem?_eq_none h]
  rfl

theorem getSet_mem (cache : Cache) (index : Nat) (hidx : index < cache.sets.length) :
    getSet cache index ∈ cache.sets := by
  rw [getSet_eq, List.getD_eq_getElem _ _ hidx]
  exact List.getElem_mem _

/-- A slot update that can only keep a slot valid if it was valid and keeps
the tag (timestamp updates, `dirty := true`, and flushes) preserves tag
uniqueness. -/
theorem tagsUnique_modifySlot (cache : Cache) (index w : Nat) (f : Slot → Slot)
    (hf : ∀ s, (f s).valid = true → s.valid = true ∧ (f s).tag = s.tag)
    (h : tagsUnique cache) : tagsUnique (modifySlot cache index w f) := by
  intro set hset i j hi hj hij hvi hvj
  rw [modifySlot_sets] at hset
  rcases List.mem_or_eq_of_mem_set hset with hmem | rfl
  · exact h set hmem i j hi hj hij hvi hvj
  · by_cases hidx : index < cache.sets.length
    · have horig := getSet_mem cache index hidx
      have hlen : ((getSet cache index).set w (f (getSlot cache index w))).length
          = (getSet cache index).length := List.length_set _ _ _
      rw [hlen] at hi hj
      by_cases hw : w < (getSet cache index).length
      · by_cases hiw : i = w
        · subst hiw
          have hji : i ≠ j := hij
          rw [getD_set_self _ _ _ _ hw] at hvi ⊢
          have hfi := hf _ hvi
          by_cases hjw : j = i
          · exact absurd hjw.symm hij
          · rw [getD_set_ne _ _ _ _ _ hij] at hvj ⊢
            rw [hfi.2]
            exact h _ horig i j hw hj hij hfi.1 hvj
        · by_cases hjw : j = w
          · subst hjw
            rw [getD_set_self _ _ _ _ hw] at hvj ⊢
            rw [getD_set_ne _ _ _ _ _ (fun hh => hiw hh.symm)] at hvi ⊢
            have hfj := hf _ hvj
            rw [hfj.2]
            exact h _ horig i j hi hw hij hvi hfj.1
          · rw [getD_set_ne _ _ _ _ _ (fun hh => hiw hh.symm)] at hvi ⊢
            rw [getD_set_ne _ _ _ _ _ (fun hh => hjw hh.symm)] at hvj ⊢
            exact h _ horig i j hi hj hij hvi hvj
      · have hnoop : (getSet cache index).set w (f (getSlot cache index w))
            = getSet cache index := List.set_eq_of_length_le (Nat.le_of_not_lt hw)
        rw [hnoop] at hvi hvj ⊢
        exact h _ horig i j hi hj hij hvi hvj
    · have hempty := getSet_out cache index (Nat.le_of_not_lt hidx)
      rw [hempty, List.set_nil] at hi
      simp at hi

/-- Installing tag `t` into way `w` preserves tag uniqueness provided no
other valid slot of the set carries `t`. -/
theorem tagsUnique_install (cache : Cache) (index w : Nat) (t : Int) (f : Slot → Slot)
    (hft : ∀ s, (f s).tag = t)
    (hno : ∀ j, j < (getSet cache index).length → j ≠ w →
      ((getSet cache index).getD j initSlot).valid = true →
      ((getSet cache index).getD j initSlot).tag ≠ t)
    (h : tagsUnique cache) : tagsUnique (modifySlot cache index w f) := by
  intro set hset i j hi hj hij hvi hvj
  rw [modifySlot_sets] at hset
  rcases List.mem_or_eq_of_mem_set hset with hmem | rfl
  · exact h set hmem i j hi hj hij hvi hvj
  · by_cases hidx : index < cache.sets.length
    · have horig := getSet_mem cache index hidx
      have hlen : ((getSet cache index).set w (f (getSlot cache index w))).length
          = (getSet cache index).length := List.length_set _ _ _
      rw [hlen] at hi hj
      by_cases hw : w < (getSet cache index).length
      · by_cases hiw : i = w
        · subst hiw
          rw [getD_set_self _ _ _ _ hw] at hvi ⊢
          by_cases hjw : j = i
          · exact absurd hjw.symm hij
          · rw [getD_set_ne _ _ _ _ _ hij] at hvj ⊢
            rw [hft]
            exact (hno j hj hjw hvj).symm
        · by_cases hjw : j = w
          · subst hjw
            rw [getD_set_self _ _ _ _ hw] at hvj ⊢
            rw [getD_set_ne _ _ _ _ _ (fun hh => hiw hh.symm)] at hvi ⊢
            rw [hft]
            exact hno i hi hiw hvi
          · rw [getD_set_ne _ _ _ _ _ (fun hh => hiw hh.symm)] at hvi ⊢
            rw [getD_set_ne _ _ _ _ _ (fun hh => hjw hh.symm)] at hvj ⊢
            exact h _ horig i j hi hj hij hvi hvj
      · have hnoop : (getSet cache index).set w (f (getSlot cache index w))
            = getSet cache index := List.set_eq_of_length_le (Nat.le_of_not_lt hw)
        rw [hnoop] at hvi hvj ⊢
        exact h _ horig i j hi hj hij hvi hvj
    · have hempty := getSet_out cache index (Nat.le_of_not_lt hidx)
      rw [hempty, List.set_nil] at hi
      simp at hi

theorem tagsUnique_frb (cache : Cache) (index : Nat) (h : tagsUnique cache) :
    tagsUnique (findReplacementBlock index cache).1 := by
  cases hfind : (getSet cache index).findIdx? (fun slot => !slot.valid) with
  | some i =>
      rw [frb_of_invalid cache index i hfind]
      exact h
  | none =>
      by_cases hc : ((getSet cache index).getD (policyVictim cache (getSet cache index))
          initSlot).dirty = true ∧ cache.handleWrite = "write-back"
      · rw [frb_evict_dirty cache index hfind hc.1 hc.2]
        refine tagsUnique_modifySlot cache index (policyVictim cache (getSet cache index))
          (fun s => { s with valid := false, dirty := false }) ?_ h
        intro s hvs
        exact (Bool.false_ne_true hvs).elim
      · rw [frb_evict_clean cache index hfind hc]
        exact h

theorem frb_no_tag (cache : Cache) (index : Nat) (t : Int)
    (hno : ∀ j, j < (getSet cache index).length →
      ((getSet cache index).getD j initSlot).valid = true →
      ((getSet cache index).getD j initSlot).tag ≠ t) :
    ∀ j, j < (getSet (findReplacementBlock index cache).1 index).length →
      ((getSet (findReplacementBlock index cache).1 index).getD j initSlot).valid = true →
      ((getSet (findReplacementBlock index cache).1 index).getD j initSlot).tag ≠ t := by
  cases hfind : (getSet cache index).findIdx? (fun slot => !slot.valid) with
  | some i =>
      rw [frb_of_invalid cache index i hfind]
      exact hno
  | none =>
      by_cases hc : ((getSet cache index).getD (policyVictim cache (getSet cache index))
          initSlot).dirty = true ∧ cache.handleWrite = "write-back"
      · rw [frb_evict_dirty cache index hfind hc.1 hc.2]
        intro j hj hv
        by_cases hidx : index < cache.sets.length
        · have hset : getSet { cache with sets := cache.sets.set index ((getSet cache index).set (policyVictim cache (getSet cache index)) { (getSet cache index).getD (policyVictim cache (getSet cache index)) initSlot with valid := false, dirty := false }), totalCycles := cache.totalCycles + ((100 * cache.numBytes / 4 : Nat) : Int) } index
              = (getSet cache index).set (policyVictim cache (getSet cache index))
                { (getSet cache index).getD (policyVictim cache (getSet cache index)) initSlot with valid := false, dirty := false } := by
            rw [getSet_eq]
            exact getD_set_self _ _ _ _ hidx
          rw [hset] at hj hv ⊢
          rw [List.length_set] at hj
          by_cases hjv : j = policyVictim cache (getSet cache index)
          · subst hjv
            rw [getD_set_self _ _ _ _ hj] at hv
            exact (Bool.false_ne_true hv).elim
          · rw [getD_set_ne _ _ _ _ _ (fun hh => hjv hh.symm)] at hv ⊢
            exact hno j hj hv
        · have hset : getSet { cache with sets := cache.sets.set index ((getSet cache index).set (policyVictim cache (getSet cache index)) { (getSet cache index).getD (policyVictim cache (getSet cache index)) initSlot with valid := false, dirty := false }), totalCycles := cache.totalCycles + ((100 * cache.numBytes / 4 : Nat) : Int) } index
              = getSet cache index := by
            rw [getSet_eq, List.set_eq_of_length_le (Nat.le_of_not_lt hidx)]
            exact rfl
          rw [hset] at hj hv ⊢
          exact hno j hj hv
      · rw [frb_evict_clean cache index hfind hc]
        exact hno

theorem findBlock_none_no_tag (tag : Int) (index : Nat) (cache : Cache)
    (h : findBlock tag index cache = none) :
    ∀ j, j < (getSet cache index).length →
      ((getSet cache index).getD j initSlot).valid = true →
      ((getSet cache index).getD j initSlot).tag ≠ tag := by
  rw [findBlock, List.findIdx?_eq_none_iff] at h
  intro j hj hv htag
  have hmem : (getSet cache index).getD j initSlot ∈ getSet cache index := by
    rw [List.getD_eq_getElem _ _ hj]
    exact List.getElem_mem _
  have hfalse := h _ hmem
  rw [hv, htag] at hfalse
  simp at hfalse

theorem tagsUnique_handleLoad (cache : Cache) (index : Nat) (tag : Int)
    (h : tagsUnique cache) :
    tagsUnique (handleLoad cache index tag (findBlock tag index cache)) := by
  cases hhit : findBlock tag index cache with
  | some w =>
      by_cases hpol : cache.handleEviction = "lru"
      · rw [handleLoad_hit_lru cache index tag w hpol]
        exact tagsUnique_modifySlot _ index w _ (fun s hvs => ⟨hvs, rfl⟩) h
      · rw [handleLoad_hit_fifo cache index tag w hpol]
        exact h
  | none =>
      have hno : ∀ j, j < (getSet (missState cache) index).length →
          ((getSet (missState cache) index).getD j initSlot).valid = true →
          ((getSet (missState cache) index).getD j initSlot).tag ≠ tag :=
        findBlock_none_no_tag tag index cache hhit
      have hnoR := frb_no_tag (missState cache) index tag hno
      have hU : tagsUnique (findReplacementBlock index (missState cache)).1 :=
        tagsUnique_frb (missState cache) index h
      by_cases hpol : cache.handleEviction = "lru"
      · rw [handleLoad_miss_lru cache index tag hpol]
        exact tagsUnique_install _ index _ tag _ (fun s => rfl)
          (fun j hj _ hv => hnoR j hj hv) hU
      · rw [handleLoad_miss_fifo cache index tag hpol]
        exact tagsUnique_install _ index _ tag _ (fun s => rfl)
          (fun j hj _ hv => hnoR j hj hv) hU

theorem tagsUnique_handleStore (cache : Cache) (index : Nat) (tag : Int)
    (h : tagsUnique cache) :
    tagsUnique (handleStore cache index tag (findBlock tag index cache)) := by
  cases hhit : findBlock tag index cache with
  | some w =>
      by_cases hwb : cache.handleWrite = "write-back"
      · rw [handleStore_hit_wb cache index tag w hwb]
        exact tagsUnique_modifySlot
          (modifySlot { cache with storeCount := cache.storeCount + 1, storeHits := cache.storeHits + 1 } index w (fun s => { s with access_ts := toU32 cache.totalCycles }))
          index w (fun s => { s with dirty := true }) (fun s hvs => ⟨hvs, rfl⟩)
          (tagsUnique_modifySlot
            { cache with storeCount := cache.storeCount + 1, storeHits := cache.storeHits + 1 }
            index w (fun s => { s with access_ts := toU32 cache.totalCycles })
            (fun s hvs => ⟨hvs, rfl⟩) h)
      · rw [handleStore_hit_wt cache index tag w hwb]
        exact tagsUnique_modifySlot
          { cache with storeCount := cache.storeCount + 1, storeHits := cache.storeHits + 1 }
          index w (fun s => { s with access_ts := toU32 cache.totalCycles })
          (fun s hvs => ⟨hvs, rfl⟩) h
  | none =>
      by_cases hnwa : cache.handleMiss = "no-write-allocate"
      · have heq : handleStore cache index tag none =
            { cache with storeCount := cache.storeCount + 1, storeMisses := cache.storeMisses + 1, totalCycles := cache.totalCycles + 100 } := by
          simp only [handleStore]
          rw [if_pos hnwa]
        rw [heq]
        exact h
      · rw [handleStore_miss_wa cache index tag hnwa]
        have hno : ∀ j, j < (getSet (storeMissState cache) index).length →
            ((getSet (storeMissState cache) index).getD j initSlot).valid = true →
            ((getSet (storeMissState cache) index).getD j initSlot).tag ≠ tag :=
          findBlock_none_no_tag tag index cache hhit
        have hnoR := frb_no_tag (storeMissState cache) index tag hno
        have hU : tagsUnique (findReplacementBlock index (storeMissState cache)).1 :=
          tagsUnique_frb (storeMissState cache) index h
        have hinstA : tagsUnique (modifySlot { (findReplacementBlock index (storeMissState cache)).1 with totalCycles := (findReplacementBlock index (storeMissState cache)).1.totalCycles + 1 } index (findReplacementBlock index (storeMissState cache)).2 (fun s => { s with valid := true, tag := tag, access_ts := toU32 ((findReplacementBlock index (storeMissState cache)).1.totalCycles + 1) })) :=
          tagsUnique_install _ index _ tag _ (fun s => rfl)
            (fun j hj _ hv => hnoR j hj hv) hU
        have hinstB : tagsUnique (modifySlot { (findReplacementBlock index (storeMissState cache)).1 with totalCycles := (findReplacementBlock index (storeMissState cache)).1.totalCycles + 1 } index (findReplacementBlock index (storeMissState cache)).2 (fun s => { s with valid := true, tag := tag, load_ts := toU32 ((findReplacementBlock index (storeMissState cache)).1.totalCycles + 1) })) :=
          tagsUnique_install _ index _ tag _ (fun s => rfl)
            (fun j hj _ hv => hnoR j hj hv) hU
        by_cases hwbp : cache.handleWrite = "write-back"
        · rw [if_pos hwbp]
          by_cases hpol : cache.handleEviction = "lru"
          · rw [if_pos hpol]
            exact tagsUnique_modifySlot _ index _ _ (fun s hvs => ⟨hvs, rfl⟩) hinstA
          · rw [if_neg hpol]
            exact tagsUnique_modifySlot _ index _ _ (fun s hvs => ⟨hvs, rfl⟩) hinstB
        · rw [if_neg hwbp]
          by_cases hpol : cache.handleEviction = "lru"
          · rw [if_pos hpol]
            exact hinstA
          · rw [if_neg hpol]
            exact hinstB

theorem tagsUnique_simulator (cache : Cache) (c : Char) (a : Int)
    (h : tagsUnique cache) : tagsUnique (cacheSimulator cache c a) := by
  simp only [cacheSimulator]
  by_cases hc : c = 'l'
  · rw [if_pos hc]
    exact tagsUnique_handleLoad cache _ _ h
  · rw [if_neg hc]
    exact tagsUnique_handleStore cache _ _ h

theorem tagsUnique_cacheSetUp (ns nb nB : Nat) (hm hw he : String) :
    tagsUnique (cacheSetUp ns nb nB hm hw he) := by
  intro set hset i j hi hj _hij hvi _hvj
  exfalso
  have hrep : set = List.replicate nb initSlot :=
    List.eq_of_mem_replicate hset
  rw [hrep] at hi hvi
  rw [List.getD_eq_getElem _ _ hi, List.getElem_replicate] at hvi
  exact absurd hvi (by decide)

theorem tagsUnique_runTrace (trace : List (Char × Nat)) (cache : Cache)
    (h : tagsUnique cache) : tagsUnique (runTrace cache trace) := by
  induction trace generalizing cache with
  | nil => exact h
  | cons p rest ih =>
      exact ih _ (tagsUnique_simulator cache p.1 (int32OfUInt32 p.2) h)

/-- Claim C8: in every state reachable from a freshly initialized cache by any
sequence of accesses, tags are unique among the valid slots of each set —
no access ever installs a tag that is already valid in the same set (misses
install only absent tags; hits and flushes never change the tag of a valid slot). -/
theorem claim_C8_unique_tags (ns nb nB : Nat) (hm hw he : String)
    (trace : List (Char × Nat)) :
    tagsUnique (runTrace (cacheSetUp ns nb nB hm hw he) trace) :=
  tagsUnique_runTrace trace _ (tagsUnique_cacheSetUp ns nb nB hm hw he)

end CacheSim
